import Mathlib

/-!
Shallow embedding of the Task-Management-System repository
(`task_manager/task.py`, `task_manager/validators.py`,
`task_manager/database_handler.py`, `task_manager/task_manager.py`).

Modelling conventions:
* Python `datetime` values become `DateTime`: a calendar day number plus a
  time-of-day offset; `datetime.date()` projects the day number; comparison
  is lexicographic.
* Python exceptions become the `PyErr` sum; a fallible call returns
  `Except PyErr α`, and a method that may raise after mutating state returns
  the resulting state together with an `Except` outcome.
* Python object references are modelled by an explicit heap keyed by `Nat`
  references, with the manager state holding an allocation counter.  The `_tasks` dict
  and the `_task_list` list both store references, exactly as the Python
  structures share the same `Task` objects; field assignment mutates the heap
  cell, so it is visible through both structures.
* Python dicts are insertion-ordered association lists; assignment to an
  existing key replaces the value in place, assignment to a fresh key appends.
* `str.strip` is modelled by `pyStrip`, `str.lower` by `pyLower` and
  `str.startswith` by a character-list check, all executable functions on
  the string's character list (the identifiers and keywords this program
  compares are ASCII).
-/

namespace TMS

/-- Calendar date-time: day number and intra-day time, ordered lexicographically. -/
structure DateTime where
  day : Int
  tod : Nat
  deriving DecidableEq, Repr

/-- Python `datetime.date()`: the calendar-day projection. -/
def DateTime.date (d : DateTime) : Int := d.day

/-- Strict chronological comparison (Python `<` on `datetime`). -/
def DateTime.lt (a b : DateTime) : Bool :=
  a.day < b.day || (a.day == b.day && a.tod < b.tod)

/-- Non-strict chronological comparison (Python `<=` on `datetime`). -/
def DateTime.le (a b : DateTime) : Bool :=
  a.day < b.day || (a.day == b.day && a.tod ≤ b.tod)

/-- Core of Python `str.strip()`: drops leading and trailing whitespace. -/
def stripData (l : List Char) : List Char :=
  ((l.dropWhile Char.isWhitespace).reverse.dropWhile Char.isWhitespace).reverse

/-- Python `str.strip()` on strings. -/
def pyStrip (x : String) : String := ⟨stripData x.data⟩

/-- Python `str.lower()`: character-wise lowering (the ids and keywords in
this program are ASCII). -/
def pyLower (x : String) : String := ⟨x.data.map Char.toLower⟩

/-- Tests whether an `Except` is an error (a raised Python exception). -/
def isErr {ε α : Type} : Except ε α → Bool
  | .error _ => true
  | .ok _ => false

instance exceptDecEq {ε α : Type} [DecidableEq ε] [DecidableEq α] :
    DecidableEq (Except ε α) := fun a b =>
  match a, b with
  | .ok x, .ok y =>
    if h : x = y then .isTrue (by rw [h])
    else .isFalse (by intro hh; cases hh; exact h rfl)
  | .error x, .error y =>
    if h : x = y then .isTrue (by rw [h])
    else .isFalse (by intro hh; cases hh; exact h rfl)
  | .ok _, .error _ => .isFalse (by intro hh; cases hh)
  | .error _, .ok _ => .isFalse (by intro hh; cases hh)

/-- Python exception values raised by this program. -/
inductive PyErr where
  | valueError (msg : String)
  | typeError (msg : String)
  | connectionError (msg : String)
  | exception (msg : String)
  deriving DecidableEq, Repr

/-- Task entity (`task.py`): the seven stored attributes. -/
structure Task where
  task_id : String
  title : String
  description : String
  due_date : DateTime
  priority : String
  status : String
  created_at : DateTime
  deriving DecidableEq, Repr

/-- Lists of allowed priorities (`Task.VALID_PRIORITIES`). -/
def Task.VALID_PRIORITIES : List String := ["Low", "Medium", "High"]

/-- Lists of allowed statuses (`Task.VALID_STATUSES`). -/
def Task.VALID_STATUSES : List String := ["Pending", "In Progress", "Completed"]

/-- Flat key-value representation of a task (the store document / `to_dict`
output).  `status` and `created_at` are optional because `from_dict` reads
them with `.get`, i.e. tolerates their absence. -/
structure TaskDict where
  task_id : String
  title : String
  description : String
  due_date : DateTime
  priority : String
  status : Option String
  created_at : Option DateTime
  deriving DecidableEq, Repr

/-- Task constructor (`Task.__init__`): assigns each private field directly,
with no validation; `created_at=None` defaults to the current time `now`,
and the `status` argument defaults to `"Pending"` at call sites. -/
def Task.init (now : DateTime) (task_id title description : String)
    (due_date : DateTime) (priority : String) (status : String := "Pending")
    (created_at : Option DateTime := none) : Task :=
  { task_id := task_id, title := title, description := description,
    due_date := due_date, priority := priority, status := status,
    created_at := created_at.getD now }

/-- Title mutator (`Task.title` setter): rejects empty / all-whitespace,
stores the stripped value. -/
def Task.setTitle (t : Task) (value : String) : Except PyErr Task :=
  if value = "" || pyStrip value = "" then .error (.valueError "Title cannot be empty")
  else .ok { t with title := pyStrip value }

/-- Description mutator (`Task.description` setter): never fails, `None`/empty
collapse to the empty string. -/
def Task.setDescription (t : Task) (value : String) : Task :=
  { t with description := value }

/-- Due-date mutator (`Task.due_date` setter): the runtime type check always
passes in the embedding, where the argument is a `DateTime`. -/
def Task.setDueDate (t : Task) (value : DateTime) : Task :=
  { t with due_date := value }

/-- Priority mutator (`Task.priority` setter): membership check against
`VALID_PRIORITIES`. -/
def Task.setPriority (t : Task) (value : String) : Except PyErr Task :=
  if value ∈ Task.VALID_PRIORITIES then .ok { t with priority := value }
  else .error (.valueError "Priority must be one of: Low, Medium, High")

/-- Status mutator (`Task.status` setter): membership check against
`VALID_STATUSES`. -/
def Task.setStatus (t : Task) (value : String) : Except PyErr Task :=
  if value ∈ Task.VALID_STATUSES then .ok { t with status := value }
  else .error (.valueError "Status must be one of: Pending, In Progress, Completed")

/-- Serialization (`Task.to_dict`): emits all seven keys. -/
def Task.to_dict (t : Task) : TaskDict :=
  { task_id := t.task_id, title := t.title, description := t.description,
    due_date := t.due_date, priority := t.priority, status := some t.status,
    created_at := some t.created_at }

/-- Deserialization (`Task.from_dict`): mandatory keys read directly, `status`
defaults to `"Pending"`, missing `created_at` falls back to the clock via
`Task.init`. -/
def Task.from_dict (d : TaskDict) (now : DateTime) : Task :=
  Task.init now d.task_id d.title d.description d.due_date d.priority
    (d.status.getD "Pending") d.created_at

/-- Title validator (`Validators.validate_title`): rejects empty or
all-whitespace input, returns the stripped title. -/
def validate_title (title : String) : Except PyErr String :=
  if title = "" || pyStrip title = "" then .error (.valueError "Title cannot be empty")
  else .ok (pyStrip title)

/-- Priority validator (`Validators.validate_priority`): case-insensitive,
returns the canonical capitalisation.  The source first consults a lowercase
map and then falls back to a scan of the valid list; both steps are kept. -/
def validate_priority (priority : String) : Except PyErr String :=
  if pyLower (pyStrip priority) = "low" then .ok "Low"
  else if pyLower (pyStrip priority) = "medium" then .ok "Medium"
  else if pyLower (pyStrip priority) = "high" then .ok "High"
  else match Task.VALID_PRIORITIES.find? (fun v => pyLower v == pyLower (pyStrip priority)) with
    | some v => .ok v
    | none => .error (.valueError "Priority must be one of: Low, Medium, High")

/-- Status validator (`Validators.validate_status`): case-insensitive,
returns the canonical capitalisation. -/
def validate_status (status : String) : Except PyErr String :=
  if pyLower (pyStrip status) = "pending" then .ok "Pending"
  else if pyLower (pyStrip status) = "in progress" then .ok "In Progress"
  else if pyLower (pyStrip status) = "completed" then .ok "Completed"
  else match Task.VALID_STATUSES.find? (fun v => pyLower v == pyLower (pyStrip status)) with
    | some v => .ok v
    | none => .error (.valueError "Status must be one of: Pending, In Progress, Completed")

/-- Description validator (`Validators.validate_description`): total, maps
empty / all-whitespace to the empty string, otherwise strips. -/
def validate_description (description : String) : String :=
  if description ≠ "" && pyStrip description ≠ "" then pyStrip description else ""

/-- Message carried by a Python exception (used when re-raising wrapped). -/
def PyErr.msg : PyErr → String
  | .valueError m => m
  | .typeError m => m
  | .connectionError m => m
  | .exception m => m

/-- Partial-update dictionary built by `TaskManager.update_task` and consumed
by `DatabaseHandler.update_task` as the `$set` document. -/
structure UpdateData where
  title : Option String := none
  description : Option String := none
  due_date : Option DateTime := none
  priority : Option String := none
  status : Option String := none
  deriving DecidableEq, Repr

/-- Emptiness of the update dictionary (Python truthiness `if update_data:`). -/
def UpdateData.isEmpty (u : UpdateData) : Bool :=
  u.title.isNone && u.description.isNone && u.due_date.isNone &&
    u.priority.isNone && u.status.isNone

/-- Mongo `$set` applied to one stored document. -/
def TaskDict.applySet (d : TaskDict) (u : UpdateData) : TaskDict :=
  { d with title := u.title.getD d.title,
           description := u.description.getD d.description,
           due_date := u.due_date.getD d.due_date,
           priority := u.priority.getD d.priority,
           status := (u.status.map some).getD d.status }

/-- Persistent store (`DatabaseHandler` plus the Mongo collection):
`connected` is the liveness probe's answer, `docs` the collection in
insertion order.  The collection has a unique index on `task_id`. -/
structure Store where
  connected : Bool
  docs : List TaskDict
  deriving DecidableEq, Repr

/-- Liveness probe (`DatabaseHandler.is_connected`). -/
def Store.is_connected (st : Store) : Bool := st.connected

/-- Replaces the first document matching `tid` by its `$set` image
(Mongo `update_one`). -/
def setFirstDoc : List TaskDict → String → UpdateData → List TaskDict
  | [], _, _ => []
  | d :: ds, tid, u =>
    if d.task_id == tid then d.applySet u :: ds else d :: setFirstDoc ds tid u

/-- Store insert (`DatabaseHandler.insert_task`): raises `ConnectionError`
when disconnected, `ValueError` on a `task_id` uniqueness violation, else
appends the serialized task. -/
def Store.insert_task (st : Store) (t : Task) : Store × Except PyErr Bool :=
  if !st.connected then (st, .error (.connectionError "Database not connected"))
  else if (st.docs.find? (fun d => d.task_id == t.task_id)).isSome then
    (st, .error (.valueError ("Task with ID " ++ t.task_id ++ " already exists")))
  else ({ st with docs := st.docs ++ [t.to_dict] }, .ok true)

/-- Store full scan (`DatabaseHandler.get_all_tasks`): raises
`ConnectionError` when disconnected, else deserializes every document;
`now` feeds `from_dict` for documents lacking `created_at`. -/
def Store.get_all_tasks (st : Store) (now : DateTime) : Except PyErr (List Task) :=
  if !st.connected then .error (.connectionError "Database not connected")
  else .ok (st.docs.map (fun d => Task.from_dict d now))

/-- Store partial update (`DatabaseHandler.update_task`): `$set` on the first
matching document; reports whether a document was modified. -/
def Store.update_task (st : Store) (tid : String) (u : UpdateData) :
    Store × Except PyErr Bool :=
  if !st.connected then (st, .error (.connectionError "Database not connected"))
  else match st.docs.find? (fun d => d.task_id == tid) with
    | none => (st, .ok false)
    | some d => ({ st with docs := setFirstDoc st.docs tid u },
                 .ok (decide (d.applySet u ≠ d)))

/-- Store delete (`DatabaseHandler.delete_task`): removes the first matching
document; reports whether one was deleted. -/
def Store.delete_task (st : Store) (tid : String) : Store × Except PyErr Bool :=
  if !st.connected then (st, .error (.connectionError "Database not connected"))
  else match st.docs.find? (fun d => d.task_id == tid) with
    | none => (st, .ok false)
    | some _ => ({ st with docs := st.docs.eraseP (fun d => d.task_id == tid) }, .ok true)

/-- In-memory manager state (`TaskManager.__init__` plus the object heap):
`tasks` is the `_tasks` dict (id key to object reference, insertion-ordered),
`task_list` the `_task_list` (object references, insertion order), `heap`
holds every allocated `Task` object, `db` the store handle. -/
structure TMState where
  heap : List (Nat × Task)
  nextRef : Nat
  tasks : List (String × Nat)
  task_list : List Nat
  db : Store
  deriving DecidableEq, Repr

/-- Heap dereference. -/
def heapLookup (h : List (Nat × Task)) (r : Nat) : Option Task :=
  (h.find? (fun p => p.1 == r)).map (·.2)

/-- Field assignment on the object at `r` (visible through every alias). -/
def heapSet (h : List (Nat × Task)) (r : Nat) (f : Task → Task) : List (Nat × Task) :=
  h.map (fun p => if p.1 == r then (p.1, f p.2) else p)

/-- Python dict lookup (`d[k]` / `k in d`). -/
def dictLookup (d : List (String × Nat)) (k : String) : Option Nat :=
  (d.find? (fun p => p.1 == k)).map (·.2)

/-- Python dict assignment: replaces in place when the key exists, else
appends, preserving insertion order. -/
def dictInsert (d : List (String × Nat)) (k : String) (r : Nat) : List (String × Nat) :=
  if (d.find? (fun p => p.1 == k)).isSome then
    d.map (fun p => if p.1 == k then (k, r) else p)
  else d ++ [(k, r)]

/-- Python `del d[k]`: removes the entry with key `k` (dict keys are unique,
so removing all occurrences coincides). -/
def dictErase (d : List (String × Nat)) (k : String) : List (String × Nat) :=
  d.filter (fun p => p.1 != k)

/-- Case-insensitive id match used by partial lookup:
`full_id.lower().startswith(task_id_lower)`. -/
def idMatches (full_id tid : String) : Bool :=
  ((pyLower tid).data).isPrefixOf (pyLower full_id).data

/-- Predicate evaluation through a reference; an unallocated reference (never
produced by the manager) counts as no match. -/
def derefCheck (s : TMState) (pred : Task → Bool) (r : Nat) : Bool :=
  match heapLookup s.heap r with
  | some t => pred t
  | none => false

namespace TaskManager

/-- Cache reload (`TaskManager.load_tasks_from_db`): scans the store, and on
success clears the dict and the list and appends a fresh object per scanned
task, returning `true`; any store error is caught and `false` is returned
with the cache untouched (the scan happens before the clear). -/
def load_tasks_from_db (s : TMState) (now : DateTime) : TMState × Bool :=
  match s.db.get_all_tasks now with
  | .error _ => (s, false)
  | .ok ts =>
    let s1 := ts.foldl (fun acc t =>
      { acc with heap := acc.heap ++ [(acc.nextRef, t)],
                 nextRef := acc.nextRef + 1,
                 tasks := dictInsert acc.tasks t.task_id acc.nextRef,
                 task_list := acc.task_list ++ [acc.nextRef] })
      { s with tasks := [], task_list := [] }
    (s1, true)

/-- Lookup (`TaskManager.get_task`): exact dict hit first, else the first
dict entry (insertion order) whose id starts with the argument,
case-insensitively; returns the object reference. -/
def get_task (s : TMState) (task_id : String) : Option Nat :=
  match dictLookup s.tasks task_id with
  | some r => some r
  | none => (s.tasks.find? (fun p => idMatches p.1 task_id)).map (·.2)

/-- Snapshot (`TaskManager.get_all_tasks`): a copy of `_task_list`. -/
def get_all_tasks (s : TMState) : List Nat := s.task_list

/-- Cache size (`TaskManager.get_task_count`). -/
def get_task_count (s : TMState) : Nat := s.task_list.length

/-- Creation (`TaskManager.add_task`): validates all four textual fields
before any store access, builds the object (`freshId` models `uuid.uuid4()`,
`now` the clock), inserts it into the store, and only on store success adds
it to the dict and the list.  A store `ValueError` is re-raised wrapped as
`Cannot add task`, any other store error as `Database error`. -/
def add_task (s : TMState) (title description : String) (due_date : DateTime)
    (priority : String) (status : String := "Pending")
    (freshId : String) (now : DateTime) : TMState × Except PyErr Nat :=
  match validate_title title with
  | .error e => (s, .error e)
  | .ok title' =>
  let description' := validate_description description
  match validate_priority priority with
  | .error e => (s, .error e)
  | .ok priority' =>
  match validate_status status with
  | .error e => (s, .error e)
  | .ok status' =>
  let task := Task.init now freshId title' description' due_date priority' status' none
  match s.db.insert_task task with
  | (db', .error (.valueError m)) =>
      ({ s with db := db' }, .error (.valueError ("Cannot add task: " ++ m)))
  | (db', .error e) =>
      ({ s with db := db' }, .error (.exception ("Database error: " ++ e.msg)))
  | (db', .ok _) =>
      ({ s with db := db',
                heap := s.heap ++ [(s.nextRef, task)],
                nextRef := s.nextRef + 1,
                tasks := dictInsert s.tasks freshId s.nextRef,
                task_list := s.task_list ++ [s.nextRef] }, .ok s.nextRef)

/-- Title block of `update_task` (`if title is not None:`): validates, assigns
through the live object's setter, and records the new value in the update
dictionary; on a validation error the state mutated so far is kept and the
error propagates. -/
def stepTitle (r : Nat) (v? : Option String) (su : TMState × UpdateData) :
    Except (TMState × PyErr) (TMState × UpdateData) :=
  match v? with
  | none => .ok su
  | some v =>
    match validate_title v with
    | .error e => .error (su.1, e)
    | .ok v' =>
      match heapLookup su.1.heap r with
      | none => .ok su
      | some t =>
        match t.setTitle v' with
        | .error e => .error (su.1, e)
        | .ok t' => .ok ({ su.1 with heap := heapSet su.1.heap r (fun _ => t') },
                         { su.2 with title := some t'.title })

/-- Description block of `update_task`: validation is total, so this step
never fails. -/
def stepDescription (r : Nat) (v? : Option String) (su : TMState × UpdateData) :
    TMState × UpdateData :=
  match v? with
  | none => su
  | some v =>
    let v' := validate_description v
    match heapLookup su.1.heap r with
    | none => su
    | some t =>
      let t' := t.setDescription v'
      ({ su.1 with heap := heapSet su.1.heap r (fun _ => t') },
       { su.2 with description := some t'.description })

/-- Due-date block of `update_task`: the setter's runtime type check always
passes, so this step never fails; the raw argument (not the setter's result)
is recorded in the update dictionary. -/
def stepDueDate (r : Nat) (v? : Option DateTime) (su : TMState × UpdateData) :
    TMState × UpdateData :=
  match v? with
  | none => su
  | some v =>
    ({ su.1 with heap := heapSet su.1.heap r (fun t => t.setDueDate v) },
     { su.2 with due_date := some v })

/-- Priority block of `update_task`. -/
def stepPriority (r : Nat) (v? : Option String) (su : TMState × UpdateData) :
    Except (TMState × PyErr) (TMState × UpdateData) :=
  match v? with
  | none => .ok su
  | some v =>
    match validate_priority v with
    | .error e => .error (su.1, e)
    | .ok v' =>
      match heapLookup su.1.heap r with
      | none => .ok su
      | some t =>
        match t.setPriority v' with
        | .error e => .error (su.1, e)
        | .ok t' => .ok ({ su.1 with heap := heapSet su.1.heap r (fun _ => t') },
                         { su.2 with priority := some t'.priority })

/-- Status block of `update_task`. -/
def stepStatus (r : Nat) (v? : Option String) (su : TMState × UpdateData) :
    Except (TMState × PyErr) (TMState × UpdateData) :=
  match v? with
  | none => .ok su
  | some v =>
    match validate_status v with
    | .error e => .error (su.1, e)
    | .ok v' =>
      match heapLookup su.1.heap r with
      | none => .ok su
      | some t =>
        match t.setStatus v' with
        | .error e => .error (su.1, e)
        | .ok t' => .ok ({ su.1 with heap := heapSet su.1.heap r (fun _ => t') },
                         { su.2 with status := some t'.status })

/-- Update (`TaskManager.update_task`): resolves by full or partial id,
applies the five optional field blocks in source order (title, description,
due date, priority, status) against the live cached object, then writes the
accumulated update dictionary to the store under the full id (skipping the
write when no field was provided).  Validation errors propagate with the
partially mutated cache kept and no store write; store errors are wrapped
as `Database error`. -/
def update_task (s : TMState) (task_id : String)
    (title : Option String := none) (description : Option String := none)
    (due_date : Option DateTime := none) (priority : Option String := none)
    (status : Option String := none) : TMState × Except PyErr Bool :=
  match get_task s task_id with
  | none => (s, .ok false)
  | some r =>
    match heapLookup s.heap r with
    | none => (s, .ok false)
    | some t0 =>
      let full_task_id := t0.task_id
      match stepTitle r title (s, {}) with
      | .error (s', e) => (s', .error e)
      | .ok su1 =>
      let su2 := stepDescription r description su1
      let su3 := stepDueDate r due_date su2
      match stepPriority r priority su3 with
      | .error (s', e) => (s', .error e)
      | .ok su4 =>
      match stepStatus r status su4 with
      | .error (s', e) => (s', .error e)
      | .ok (s5, u) =>
        if u.isEmpty then (s5, .ok true)
        else match s5.db.update_task full_task_id u with
          | (db', .ok _) => ({ s5 with db := db' }, .ok true)
          | (db', .error e) =>
              ({ s5 with db := db' }, .error (.exception ("Database error: " ++ e.msg)))

/-- Completion shorthand (`TaskManager.mark_completed`). -/
def mark_completed (s : TMState) (task_id : String) : TMState × Except PyErr Bool :=
  update_task s task_id none none none none (some "Completed")

/-- Deletion (`TaskManager.delete_task`): resolves by full or partial id,
deletes from the store by full id, and only then removes the dict entry and
filters the list by the full id; store errors are wrapped as
`Database error` with the cache untouched. -/
def delete_task (s : TMState) (task_id : String) : TMState × Except PyErr Bool :=
  match get_task s task_id with
  | none => (s, .ok false)
  | some r =>
    match heapLookup s.heap r with
    | none => (s, .ok false)
    | some t =>
      let full_task_id := t.task_id
      match s.db.delete_task full_task_id with
      | (db', .error e) =>
          ({ s with db := db' }, .error (.exception ("Database error: " ++ e.msg)))
      | (db', .ok _) =>
          ({ s with db := db',
                    tasks := dictErase s.tasks full_task_id,
                    task_list := s.task_list.filter (fun r' =>
                      match heapLookup s.heap r' with
                      | some t' => t'.task_id != full_task_id
                      | none => true) }, .ok true)

/-- Priority criterion of `filter_tasks` (`if priority:` then validate and
keep matching tasks); `some ""` is falsy in Python and imposes no filter. -/
def filterByPriority (s : TMState) (priority : Option String) (l : List Nat) :
    Except PyErr (List Nat) :=
  match priority with
  | none => .ok l
  | some p =>
    if p = "" then .ok l
    else match validate_priority p with
      | .error e => .error e
      | .ok p' => .ok (l.filter (derefCheck s (fun t => t.priority == p')))

/-- Status criterion of `filter_tasks`. -/
def filterByStatus (s : TMState) (status : Option String) (l : List Nat) :
    Except PyErr (List Nat) :=
  match status with
  | none => .ok l
  | some p =>
    if p = "" then .ok l
    else match validate_status p with
      | .error e => .error e
      | .ok p' => .ok (l.filter (derefCheck s (fun t => t.status == p')))

/-- Exact-day criterion of `filter_tasks`: compares `date()` projections only. -/
def filterByDueDate (s : TMState) (due_date : Option DateTime) (l : List Nat) : List Nat :=
  match due_date with
  | none => l
  | some d => l.filter (derefCheck s (fun t => t.due_date.date == d.date))

/-- Strict before criterion of `filter_tasks`: full date-time comparison. -/
def filterByDueBefore (s : TMState) (bound : Option DateTime) (l : List Nat) : List Nat :=
  match bound with
  | none => l
  | some d => l.filter (derefCheck s (fun t => t.due_date.lt d))

/-- Strict after criterion of `filter_tasks`: full date-time comparison. -/
def filterByDueAfter (s : TMState) (bound : Option DateTime) (l : List Nat) : List Nat :=
  match bound with
  | none => l
  | some d => l.filter (derefCheck s (fun t => d.lt t.due_date))

/-- Filtering (`TaskManager.filter_tasks`): starts from a copy of
`_task_list` and narrows it criterion by criterion in source order. -/
def filter_tasks (s : TMState) (priority : Option String := none)
    (status : Option String := none) (due_date : Option DateTime := none)
    (due_date_before : Option DateTime := none)
    (due_date_after : Option DateTime := none) : Except PyErr (List Nat) :=
  match filterByPriority s priority s.task_list with
  | .error e => .error e
  | .ok l1 =>
    match filterByStatus s status l1 with
    | .error e => .error e
    | .ok l2 =>
      .ok (filterByDueAfter s due_date_after
        (filterByDueBefore s due_date_before (filterByDueDate s due_date l2)))

/-- Sort keys accepted by `sort_tasks` (`valid_sort_fields`). -/
def valid_sort_fields : List String :=
  ["created_at", "due_date", "priority", "status", "title"]

/-- Priority rank used for sorting (`priority_order`, `.get(p, 0)`). -/
def priority_order (p : String) : Nat :=
  if p = "High" then 3 else if p = "Medium" then 2 else if p = "Low" then 1 else 0

/-- Status rank used for sorting (`status_order`, `.get(s, 0)`). -/
def status_order (st : String) : Nat :=
  if st = "Pending" then 1 else if st = "In Progress" then 2
  else if st = "Completed" then 3 else 0

/-- Non-strict key comparison corresponding to `get_sort_key`: rank order for
priority and status, case-insensitive lexicographic for title, chronological
for the two date fields. -/
def keyLe (sort_by : String) (a b : Task) : Bool :=
  if sort_by = "priority" then priority_order a.priority ≤ priority_order b.priority
  else if sort_by = "status" then status_order a.status ≤ status_order b.status
  else if sort_by = "title" then a.title.toLower ≤ b.title.toLower
  else if sort_by = "due_date" then a.due_date.le b.due_date
  else a.created_at.le b.created_at

/-- Python `sorted(tasks, key=..., reverse=...)`: the stable ascending sort by
the key; `reverse=True` flips every comparison while equal-key elements still
keep their original relative order, i.e. the stable sort by the flipped
non-strict comparison. -/
def pySorted (le : Task → Task → Bool) (reverse : Bool) (l : List Task) : List Task :=
  if reverse then l.mergeSort (fun a b => le b a) else l.mergeSort le

/-- Sorting (`TaskManager.sort_tasks`): rejects a key outside
`valid_sort_fields` with a `ValueError`, else returns the stable sort of the
given task objects. -/
def sort_tasks (tasks : List Task) (sort_by : String := "created_at")
    (reverse : Bool := false) : Except PyErr (List Task) :=
  if sort_by ∉ valid_sort_fields then
    .error (.valueError
      "Invalid sort field. Must be one of: created_at, due_date, priority, status, title")
  else .ok (pySorted (keyLe sort_by) reverse tasks)

end TaskManager

/-- Run of freshly allocated objects: references `n0, n0+1, …` paired with
the given tasks (the net heap effect of the reload loop). -/
def allocRun (n0 : Nat) : List Task → List (Nat × Task)
  | [] => []
  | t :: ts => (n0, t) :: allocRun (n0 + 1) ts

/-- Well-formedness of a manager state: dict keys unique, heap references
unique and below the allocator, every dict entry references a live object
whose immutable id equals its key, the list is exactly the dict's references
in order, and the store's unique index on `task_id` holds. -/
abbrev WF (s : TMState) : Prop :=
  (s.tasks.map Prod.fst).Nodup ∧
  (s.heap.map Prod.fst).Nodup ∧
  (∀ p ∈ s.heap, p.1 < s.nextRef) ∧
  (∀ p ∈ s.tasks, (heapLookup s.heap p.2).map Task.task_id = some p.1) ∧
  s.task_list = s.tasks.map Prod.snd ∧
  (s.db.docs.map TaskDict.task_id).Nodup

/-- Agreement of the two cache structures: every listed object is the one the
dict stores under its id, every dict reference occurs in the list exactly
once, and the sizes coincide. -/
abbrev cacheCoherent (s : TMState) : Prop :=
  (∀ r ∈ s.task_list,
    (heapLookup s.heap r).bind (fun t => dictLookup s.tasks t.task_id) = some r) ∧
  (∀ p ∈ s.tasks, s.task_list.count p.2 = 1) ∧
  s.tasks.length = s.task_list.length

/-- Whether a provided title argument fails validation. -/
def badTitle : Option String → Bool
  | none => false
  | some v => isErr (validate_title v)

/-- Whether a provided priority argument fails validation. -/
def badPriority : Option String → Bool
  | none => false
  | some v => isErr (validate_priority v)

/-- Whether a provided status argument fails validation. -/
def badStatus : Option String → Bool
  | none => false
  | some v => isErr (validate_status v)

/-- Value of a successful validation, with a fallback for the error case. -/
def okD {ε α : Type} (e : Except ε α) (d : α) : α :=
  match e with
  | .ok a => a
  | .error _ => d

/-- Priority criterion as a single predicate (claim side of C6). -/
def critPriority (priority : Option String) (t : Task) : Bool :=
  match priority with
  | none => true
  | some p => if p = "" then true else t.priority == okD (validate_priority p) t.priority

/-- Status criterion as a single predicate (claim side of C6). -/
def critStatus (status : Option String) (t : Task) : Bool :=
  match status with
  | none => true
  | some p => if p = "" then true else t.status == okD (validate_status p) t.status

/-- Calendar-day criterion as a single predicate (claim side of C6). -/
def critDueDate (due_date : Option DateTime) (t : Task) : Bool :=
  match due_date with
  | none => true
  | some d => t.due_date.date == d.date

/-- Strict-before criterion as a single predicate (claim side of C6). -/
def critDueBefore (bound : Option DateTime) (t : Task) : Bool :=
  match bound with
  | none => true
  | some d => t.due_date.lt d

/-- Strict-after criterion as a single predicate (claim side of C6). -/
def critDueAfter (bound : Option DateTime) (t : Task) : Bool :=
  match bound with
  | none => true
  | some d => d.lt t.due_date

/-- Error carried by a raised `Except` (claim-side accessor). -/
def errOf {α : Type} : Except PyErr α → PyErr
  | .error e => e
  | .ok _ => .exception ""

/-- Effect of the title block of `update_task` on the live object: applied
when provided and valid, identity otherwise (claim side of C3). -/
def updTitleFun (title : Option String) (t : Task) : Task :=
  match title with
  | none => t
  | some v =>
    match validate_title v with
    | .ok _ => { t with title := pyStrip v }
    | .error _ => t

/-- Effect of the description block of `update_task` on the live object
(claim side of C3). -/
def updDescFun (description : Option String) (t : Task) : Task :=
  match description with
  | none => t
  | some v => { t with description := validate_description v }

/-- Effect of the due-date block of `update_task` on the live object
(claim side of C3). -/
def updDueFun (due_date : Option DateTime) (t : Task) : Task :=
  match due_date with
  | none => t
  | some v => { t with due_date := v }

/-- Effect of the priority block of `update_task` on the live object:
applied when provided and valid, identity otherwise (claim side of C3). -/
def updPrioFun (priority : Option String) (t : Task) : Task :=
  match priority with
  | none => t
  | some v =>
    match validate_priority v with
    | .ok v' => { t with priority := v' }
    | .error _ => t

/-- Effect of the status block of `update_task` on the live object
(claim side of C9). -/
def updStatusFun (status : Option String) (t : Task) : Task :=
  match status with
  | none => t
  | some v =>
    match validate_status v with
    | .ok v' => { t with status := v' }
    | .error _ => t

/-- Concrete task used by the witness states. -/
def wTask1 : Task :=
  ⟨"aaa-1000", "Alpha", "", ⟨5, 0⟩, "High", "Pending", ⟨1, 0⟩⟩

/-- Concrete task used by the witness states. -/
def wTask2 : Task :=
  ⟨"bbb-2000", "beta", "", ⟨3, 0⟩, "Medium", "Completed", ⟨2, 0⟩⟩

/-- Concrete two-task manager state used by the witness theorems. -/
def wState : TMState :=
  ⟨[(0, wTask1), (1, wTask2)], 2, [("aaa-1000", 0), ("bbb-2000", 1)], [0, 1],
   ⟨true, [wTask1.to_dict, wTask2.to_dict]⟩⟩

theorem dropWhile_idem {α : Type} (p : α → Bool) (l : List α) :
    (l.dropWhile p).dropWhile p = l.dropWhile p := by
  induction l with
  | nil => simp
  | cons a l ih =>
    by_cases h : p a
    · simpa [List.dropWhile_cons, h] using ih
    · simp [List.dropWhile_cons, h]

theorem dropWhile_eq_self_of_prefix {α : Type} {p : α → Bool} {l x : List α}
    (hl : l.dropWhile p = l) (hx : x <+: l) : x.dropWhile p = x := by
  cases x with
  | nil => simp
  | cons a xs =>
    cases l with
    | nil => exact absurd (List.eq_nil_of_prefix_nil hx) (by simp)
    | cons b l' =>
      obtain ⟨rfl, -⟩ := List.cons_prefix_cons.mp hx
      by_cases h : p a
      · exfalso
        have hlen : (l'.dropWhile p).length ≤ l'.length :=
          (List.dropWhile_suffix p).sublist.length_le
        have h2 : (a :: l').dropWhile p = a :: l' := hl
        rw [List.dropWhile_cons, if_pos h] at h2
        rw [h2] at hlen
        simp at hlen
      · simp [List.dropWhile_cons, h]

theorem stripData_leading (l : List Char) : stripData l <+: l.dropWhile Char.isWhitespace := by
  unfold stripData
  have h := List.dropWhile_suffix (l := (l.dropWhile Char.isWhitespace).reverse)
    Char.isWhitespace
  have := List.reverse_prefix.mpr h
  simpa using this

theorem stripData_idem (l : List Char) : stripData (stripData l) = stripData l := by
  have h1 : (stripData l).dropWhile Char.isWhitespace = stripData l :=
    dropWhile_eq_self_of_prefix (dropWhile_idem _ l) (stripData_leading l)
  have h2 : (stripData l).reverse.dropWhile Char.isWhitespace = (stripData l).reverse := by
    unfold stripData
    rw [List.reverse_reverse]
    exact dropWhile_idem _ _
  show (((stripData l).dropWhile Char.isWhitespace).reverse.dropWhile
    Char.isWhitespace).reverse = stripData l
  rw [h1, h2, List.reverse_reverse]

theorem pyStrip_idem (x : String) : pyStrip (pyStrip x) = pyStrip x := by
  unfold pyStrip
  exact congrArg String.mk (stripData_idem x.data)

theorem pyStrip_data (x : String) : (pyStrip x).data = stripData x.data := rfl

theorem validate_title_ok {v v' : String} (h : validate_title v = .ok v') :
    v' = pyStrip v ∧ pyStrip v ≠ "" := by
  unfold validate_title at h
  split at h
  · cases h
  · rename_i hc
    simp only [Bool.or_eq_true, decide_eq_true_eq, not_or] at hc
    cases h
    exact ⟨rfl, hc.2⟩

theorem setTitle_of_validated {v v' : String} (t : Task)
    (h : validate_title v = .ok v') :
    t.setTitle v' = .ok { t with title := pyStrip v } := by
  obtain ⟨rfl, hne⟩ := validate_title_ok h
  unfold Task.setTitle
  rw [pyStrip_idem]
  have hne' : ¬(pyStrip v = "" ∨ pyStrip v = "") := by simp [hne]
  simp only [Bool.or_eq_true, decide_eq_true_eq, if_neg hne']

theorem validate_priority_ok {v v' : String} (h : validate_priority v = .ok v') :
    v' ∈ Task.VALID_PRIORITIES := by
  unfold validate_priority at h
  split at h
  · cases h; decide
  · split at h
    · cases h; decide
    · split at h
      · cases h; decide
      · split at h
        · rename_i v0 hf
          cases h
          exact List.mem_of_find?_eq_some hf
        · cases h

theorem validate_status_ok {v v' : String} (h : validate_status v = .ok v') :
    v' ∈ Task.VALID_STATUSES := by
  unfold validate_status at h
  split at h
  · cases h; decide
  · split at h
    · cases h; decide
    · split at h
      · cases h; decide
      · split at h
        · rename_i v0 hf
          cases h
          exact List.mem_of_find?_eq_some hf
        · cases h

theorem setPriority_of_validated {v v' : String} (t : Task)
    (h : validate_priority v = .ok v') :
    t.setPriority v' = .ok { t with priority := v' } := by
  unfold Task.setPriority
  rw [if_pos (validate_priority_ok h)]

theorem setStatus_of_validated {v v' : String} (t : Task)
    (h : validate_status v = .ok v') :
    t.setStatus v' = .ok { t with status := v' } := by
  unfold Task.setStatus
  rw [if_pos (validate_status_ok h)]

theorem find?_assoc_of_nodup {α β : Type} [BEq α] [LawfulBEq α]
    {l : List (α × β)} (hnd : (l.map Prod.fst).Nodup) {p : α × β} (hp : p ∈ l) :
    l.find? (fun q => q.1 == p.1) = some p := by
  induction l with
  | nil => cases hp
  | cons q l ih =>
    rw [List.map_cons, List.nodup_cons] at hnd
    rcases List.mem_cons.mp hp with rfl | hp'
    · simp [List.find?_cons]
    · have hq : (q.1 == p.1) = false := by
        rw [beq_eq_false_iff_ne]
        intro h
        exact hnd.1 (h ▸ List.mem_map_of_mem Prod.fst hp')
      rw [List.find?_cons, hq]
      exact ih hnd.2 hp'

theorem find?_heapSet (h : List (Nat × Task)) (r x : Nat) (f : Task → Task) :
    (h.map (fun p => if p.1 == r then (p.1, f p.2) else p)).find? (fun q => q.1 == x)
      = (h.find? (fun q => q.1 == x)).map
          (fun p => if p.1 == r then (p.1, f p.2) else p) := by
  induction h with
  | nil => rfl
  | cons p h ih =>
    simp only [List.map_cons, List.find?_cons]
    by_cases hpr : (p.1 == r) = true
    · rw [if_pos hpr]
      cases hbx : (p.1 == x) with
      | true => simp [hbx, (by simpa using hpr : p.1 = r)]
      | false => simpa [hbx] using ih
    · rw [if_neg hpr]
      cases hbx : (p.1 == x) with
      | true => simp [hbx, (by simpa using hpr : ¬p.1 = r)]
      | false => simpa [hbx] using ih

theorem heapLookup_heapSet (h : List (Nat × Task)) (r x : Nat) (f : Task → Task) :
    heapLookup (heapSet h r f) x =
      if x = r then (heapLookup h x).map f else heapLookup h x := by
  unfold heapLookup heapSet
  rw [find?_heapSet]
  cases hf : h.find? (fun q => q.1 == x) with
  | none => split <;> rfl
  | some q =>
    have hqx : q.1 = x := by simpa using List.find?_some hf
    by_cases hxr : x = r
    · subst hxr
      simp [hqx]
    · simp [hqx, hxr]

theorem heapSet_map_fst (h : List (Nat × Task)) (r : Nat) (f : Task → Task) :
    (heapSet h r f).map Prod.fst = h.map Prod.fst := by
  unfold heapSet
  rw [List.map_map]
  apply List.map_congr_left
  intro p _
  by_cases hpr : p.1 = r <;> simp [hpr]

theorem heapLookup_append (h1 h2 : List (Nat × Task)) (r : Nat) :
    heapLookup (h1 ++ h2) r = (heapLookup h1 r).or (heapLookup h2 r) := by
  unfold heapLookup
  rw [List.find?_append]
  cases h1.find? (fun q => q.1 == r) <;> simp

theorem dictLookup_eq_none {d : List (String × Nat)} {k : String} :
    dictLookup d k = none ↔ ∀ p ∈ d, p.1 ≠ k := by
  unfold dictLookup
  simp [List.find?_eq_none]

theorem dictLookup_mem {d : List (String × Nat)} {k : String} {r : Nat}
    (h : dictLookup d k = some r) : (k, r) ∈ d := by
  unfold dictLookup at h
  cases hf : d.find? (fun p => p.1 == k) with
  | none => rw [hf] at h; cases h
  | some q =>
    rw [hf] at h
    have hq := List.find?_some hf
    have hm := List.mem_of_find?_eq_some hf
    simp only [beq_iff_eq] at hq
    cases h
    rw [← hq]
    exact hm

theorem dictInsert_append {d : List (String × Nat)} {k : String} {r : Nat}
    (h : ∀ p ∈ d, p.1 ≠ k) : dictInsert d k r = d ++ [(k, r)] := by
  unfold dictInsert
  have hf : d.find? (fun p => p.1 == k) = none :=
    List.find?_eq_none.mpr (fun p hp => by simp [h p hp])
  simp [hf]

theorem dictLookup_of_nodup_mem {d : List (String × Nat)}
    (hnd : (d.map Prod.fst).Nodup) {p : String × Nat} (hp : p ∈ d) :
    dictLookup d p.1 = some p.2 := by
  unfold dictLookup
  rw [find?_assoc_of_nodup hnd hp]
  rfl

theorem assoc_value_unique {d : List (String × Nat)}
    (hnd : (d.map Prod.fst).Nodup) {k : String} {a b : Nat}
    (ha : (k, a) ∈ d) (hb : (k, b) ∈ d) : a = b := by
  have h1 := dictLookup_of_nodup_mem hnd ha
  have h2 := dictLookup_of_nodup_mem hnd hb
  rw [h1] at h2
  cases h2
  rfl

theorem idMatches_refl (x : String) : idMatches x x = true := by
  unfold idMatches
  exact List.isPrefixOf_iff_prefix.mpr (List.prefix_refl _)

theorem idMatches_of_take {X tid : String} {n : Nat} (h : tid.data = X.data.take n) :
    idMatches X tid = true := by
  unfold idMatches pyLower
  apply List.isPrefixOf_iff_prefix.mpr
  show (String.mk (tid.data.map Char.toLower)).data <+: _
  rw [h, List.map_take]
  exact List.take_prefix _ _

/-- C7: serializing a task to its flat key-value representation and
deserializing it back yields a task equal to the original in every field
(id, title, description, due date, priority, status and creation timestamp),
with date-time values preserved exactly; the ambient clock `now` is never
consulted because the representation carries `created_at`. -/
theorem C7_to_dict_from_dict_roundtrip (t : Task) (now : DateTime) :
    Task.from_dict (Task.to_dict t) now = t := rfl

/-- C2 counterexample: the claim says constructing a Task fails unless the
title is non-empty and the priority is one of the three allowed values; yet
`Task.__init__` happily constructs a task from an empty title and the
priority string `"Urgent"`, storing both verbatim — construction does not
fail on invalid fields. -/
theorem C2_counterexample :
    (Task.init ⟨0, 0⟩ "id-1" "" "desc" ⟨1, 0⟩ "Urgent").title = "" ∧
    (Task.init ⟨0, 0⟩ "id-1" "" "desc" ⟨1, 0⟩ "Urgent").priority = "Urgent" ∧
    (Task.init ⟨0, 0⟩ "id-1" "" "desc" ⟨1, 0⟩ "Urgent").priority ∉
      Task.VALID_PRIORITIES ∧
    (Task.init ⟨0, 0⟩ "id-1" "" "desc" ⟨1, 0⟩ "Urgent").status = "Pending" := by
  refine ⟨rfl, rfl, ?_, rfl⟩
  decide

/-- C2 amended: constructing a Task never fails and performs no validation —
the given id, title, description, due date and priority are stored verbatim
whatever they are — and when the status argument is omitted the constructed
task has status `"Pending"` (and the omitted creation timestamp is the
clock). -/
theorem C2_amended_init_unvalidated (now : DateTime) (i ti de : String)
    (dd : DateTime) (pr : String) :
    Task.init now i ti de dd pr =
      { task_id := i, title := ti, description := de, due_date := dd,
        priority := pr, status := "Pending", created_at := now } := rfl

/-- C4: `get_task` tries an exact dict hit first; failing that it returns the
first dict entry — the dict iterates in insertion order — whose id has the
argument as a case-insensitive leading substring, and returns `none` exactly
when no cached id matches; consequently, when the argument is the first 8
characters of a cached id and no other cached id matches it, the result is
exactly that task's reference. -/
theorem C4_get_task_resolution (s : TMState) (hwf : WF s) (tid : String) :
    (∀ r, dictLookup s.tasks tid = some r → TaskManager.get_task s tid = some r) ∧
    (dictLookup s.tasks tid = none →
      TaskManager.get_task s tid =
        (s.tasks.find? (fun p => idMatches p.1 tid)).map (fun p => p.2)) ∧
    (TaskManager.get_task s tid = none ↔ ∀ p ∈ s.tasks, idMatches p.1 tid = false) ∧
    (∀ X rX, (X, rX) ∈ s.tasks → tid.data = X.data.take 8 →
      (∀ p ∈ s.tasks, idMatches p.1 tid = true → p.1 = X) →
      TaskManager.get_task s tid = some rX) := by
  obtain ⟨hkeys, -, -, -, -, -⟩ := hwf
  refine ⟨?_, ?_, ?_, ?_⟩
  · intro r hr
    unfold TaskManager.get_task
    rw [hr]
  · intro hnone
    unfold TaskManager.get_task
    rw [hnone]
  · constructor
    · intro hn p hp
      unfold TaskManager.get_task at hn
      cases hd : dictLookup s.tasks tid with
      | some r => rw [hd] at hn; cases hn
      | none =>
        rw [hd] at hn
        cases hf : s.tasks.find? (fun p => idMatches p.1 tid) with
        | some q => rw [hf] at hn; cases hn
        | none =>
          by_contra hmatch
          exact absurd (List.find?_eq_none.mp hf p hp) (by simpa using hmatch)
    · intro hall
      unfold TaskManager.get_task
      cases hd : dictLookup s.tasks tid with
      | some r =>
        exact absurd (hall _ (dictLookup_mem hd)) (by simp [idMatches_refl])
      | none =>
        have hf : s.tasks.find? (fun p => idMatches p.1 tid) = none :=
          List.find?_eq_none.mpr (fun p hp => by simp [hall p hp])
        rw [hf]
        rfl
  · intro X rX hmem htake huniq
    unfold TaskManager.get_task
    cases hd : dictLookup s.tasks tid with
    | some r =>
      have hin : (tid, r) ∈ s.tasks := dictLookup_mem hd
      have : tid = X := huniq _ hin (idMatches_refl tid)
      subst this
      rw [assoc_value_unique hkeys hin hmem]
    | none =>
      cases hf : s.tasks.find? (fun p => idMatches p.1 tid) with
      | none =>
        exact absurd (List.find?_eq_none.mp hf _ hmem)
          (by simp [idMatches_of_take htake])
      | some q =>
        have hqm : (fun p : String × Nat => idMatches p.1 tid) q = true :=
          @List.find?_some _ (fun p => idMatches p.1 tid) q s.tasks hf
        have hq1 : q.1 = X := huniq q (List.mem_of_find?_eq_some hf) hqm
        have : q.2 = rX := by
          apply assoc_value_unique hkeys _ hmem
          rw [← hq1]
          exact List.mem_of_find?_eq_some hf
        simp [this]

theorem applySet_task_id (d : TaskDict) (u : UpdateData) :
    (d.applySet u).task_id = d.task_id := rfl

theorem setFirstDoc_map_id (docs : List TaskDict) (k : String) (u : UpdateData) :
    (setFirstDoc docs k u).map TaskDict.task_id = docs.map TaskDict.task_id := by
  induction docs with
  | nil => rfl
  | cons d ds ih =>
    unfold setFirstDoc
    by_cases hd : (d.task_id == k) = true
    · simp [hd, applySet_task_id]
    · simp only [Bool.not_eq_true] at hd
      simp [hd, ih]

/-- Fields other than `status` survive a status-only `$set` on every document. -/
theorem setFirstDoc_frame (docs : List TaskDict) (k : String) (u : UpdateData)
    (hu : u.title = none ∧ u.description = none ∧ u.due_date = none ∧
      u.priority = none) :
    List.Forall₂ (fun dOld dNew =>
      dNew.task_id = dOld.task_id ∧ dNew.title = dOld.title ∧
      dNew.description = dOld.description ∧ dNew.due_date = dOld.due_date ∧
      dNew.priority = dOld.priority ∧ dNew.created_at = dOld.created_at)
      docs (setFirstDoc docs k u) := by
  obtain ⟨h1, h2, h3, h4⟩ := hu
  induction docs with
  | nil => exact List.Forall₂.nil
  | cons d ds ih =>
    unfold setFirstDoc
    by_cases hd : (d.task_id == k) = true
    · rw [if_pos hd]
      refine List.Forall₂.cons ⟨rfl, ?_, ?_, ?_, ?_, rfl⟩ ?_
      · simp [TaskDict.applySet, h1]
      · simp [TaskDict.applySet, h2]
      · simp [TaskDict.applySet, h3]
      · simp [TaskDict.applySet, h4]
      · exact List.forall₂_same.mpr (fun d _ => ⟨rfl, rfl, rfl, rfl, rfl, rfl⟩)
    · rw [if_neg hd]
      exact List.Forall₂.cons ⟨rfl, rfl, rfl, rfl, rfl, rfl⟩ ih

/-- Store partial update on a connected store never raises; it returns some
boolean, keeps the store connected, preserves the documents' ids, and — when
the update dictionary touches no field but `status` — every document keeps
its other fields. -/
theorem store_update_connected {st : Store} (hc : st.connected = true)
    (k : String) (u : UpdateData) :
    ∃ db' b, st.update_task k u = (db', .ok b) ∧ db'.connected = true ∧
      db'.docs.map TaskDict.task_id = st.docs.map TaskDict.task_id ∧
      ((u.title = none ∧ u.description = none ∧ u.due_date = none ∧
        u.priority = none) →
        List.Forall₂ (fun dOld dNew =>
          dNew.task_id = dOld.task_id ∧ dNew.title = dOld.title ∧
          dNew.description = dOld.description ∧ dNew.due_date = dOld.due_date ∧
          dNew.priority = dOld.priority ∧ dNew.created_at = dOld.created_at)
          st.docs db'.docs) := by
  unfold Store.update_task
  rw [hc]
  cases hf : st.docs.find? (fun d => d.task_id == k) with
  | none =>
    exact ⟨st, false, rfl, hc, rfl,
      fun _ => List.forall₂_same.mpr (fun d _ => ⟨rfl, rfl, rfl, rfl, rfl, rfl⟩)⟩
  | some d =>
    exact ⟨_, _, rfl, rfl, setFirstDoc_map_id st.docs k u,
      fun hu => setFirstDoc_frame st.docs k u hu⟩

/-- Store delete on a connected store never raises; the surviving documents
are a sublist of the originals. -/
theorem store_delete_connected {st : Store} (hc : st.connected = true)
    (k : String) :
    ∃ db' b, st.delete_task k = (db', .ok b) ∧ db'.connected = true ∧
      db'.docs.Sublist st.docs := by
  unfold Store.delete_task
  rw [hc]
  cases hf : st.docs.find? (fun d => d.task_id == k) with
  | none => exact ⟨st, false, rfl, hc, List.Sublist.refl _⟩
  | some d => exact ⟨_, true, rfl, rfl, List.eraseP_sublist _⟩

theorem idMatches_empty (x : String) : idMatches x "" = true := by
  unfold idMatches pyLower
  apply List.isPrefixOf_iff_prefix.mpr
  show (String.mk ("".data.map Char.toLower)).data <+: _
  simp

theorem get_task_empty (s : TMState) (hne : ∀ p ∈ s.tasks, p.1 ≠ "") :
    TaskManager.get_task s "" = s.tasks.head?.map (fun p => p.2) := by
  unfold TaskManager.get_task
  rw [dictLookup_eq_none.mpr hne]
  cases s.tasks with
  | nil => rfl
  | cons p rest =>
    rw [@List.find?_cons_of_pos _ (fun q : String × Nat => idMatches q.1 "") p rest
      (idMatches_empty p.1)]
    rfl

theorem heapSet_ext {h : List (Nat × Task)} {r : Nat} {f g : Task → Task}
    (hfg : ∀ t, f t = g t) : heapSet h r f = heapSet h r g := by
  unfold heapSet
  apply List.map_congr_left
  intro p _
  by_cases hp : p.1 = r <;> simp [hp, hfg]

theorem heapSet_id (h : List (Nat × Task)) (r : Nat) :
    heapSet h r (fun t => t) = h := by
  unfold heapSet
  have hpt : ∀ p : Nat × Task, (if (p.1 == r) = true then (p.1, p.2) else p) = p :=
    fun p => by split <;> rfl
  simp only [hpt]
  exact List.map_id _

theorem heapSet_heapSet (h : List (Nat × Task)) (r : Nat) (f g : Task → Task) :
    heapSet (heapSet h r f) r g = heapSet h r (fun t => g (f t)) := by
  unfold heapSet
  rw [List.map_map]
  apply List.map_congr_left
  intro p _
  by_cases hp : p.1 = r <;> simp [hp]

theorem heapSet_of_not_mem {h : List (Nat × Task)} {r : Nat} (f : Task → Task)
    (hnm : ∀ q ∈ h, q.1 ≠ r) : heapSet h r f = h := by
  unfold heapSet
  have : ∀ q ∈ h, (if (q.1 == r) = true then (q.1, f q.2) else q) = q := by
    intro q hq
    rw [if_neg (by simp [hnm q hq])]
  rw [List.map_congr_left this]
  exact List.map_id _

theorem heapSet_congr {h : List (Nat × Task)} {r : Nat} {f g : Task → Task}
    {t : Task} (hnd : (h.map Prod.fst).Nodup) (hl : heapLookup h r = some t)
    (hfg : f t = g t) : heapSet h r f = heapSet h r g := by
  induction h with
  | nil => rfl
  | cons p hs ih =>
    rw [List.map_cons, List.nodup_cons] at hnd
    have hcons : ∀ k : Task → Task, heapSet (p :: hs) r k =
        (if (p.1 == r) = true then (p.1, k p.2) else p) :: heapSet hs r k :=
      fun k => rfl
    rw [hcons f, hcons g]
    by_cases hp : p.1 = r
    · have ht : t = p.2 := by
        unfold heapLookup at hl
        rw [List.find?_cons_of_pos _ (by simp [hp])] at hl
        cases hl
        rfl
      have hnm : ∀ q ∈ hs, q.1 ≠ r := by
        intro q hq he
        exact hnd.1 ((hp ▸ he) ▸ List.mem_map_of_mem Prod.fst hq)
      rw [heapSet_of_not_mem f hnm, heapSet_of_not_mem g hnm]
      subst ht
      simp [hp, hfg]
    · have hl' : heapLookup hs r = some t := by
        unfold heapLookup at hl ⊢
        rw [List.find?_cons_of_neg _ (by simp [hp])] at hl
        exact hl
      rw [ih hnd.2 hl']
      congr 1
      simp [hp]

theorem stepTitle_none (r : Nat) (su : TMState × UpdateData) :
    TaskManager.stepTitle r none su = .ok su := rfl

theorem stepDescription_none (r : Nat) (su : TMState × UpdateData) :
    TaskManager.stepDescription r none su = su := rfl

theorem stepDueDate_none (r : Nat) (su : TMState × UpdateData) :
    TaskManager.stepDueDate r none su = su := rfl

theorem stepPriority_none (r : Nat) (su : TMState × UpdateData) :
    TaskManager.stepPriority r none su = .ok su := rfl

theorem stepStatus_none (r : Nat) (su : TMState × UpdateData) :
    TaskManager.stepStatus r none su = .ok su := rfl

theorem stepStatus_some_ok {v v' : String} (r : Nat) (su : TMState × UpdateData)
    {t : Task} (hval : validate_status v = .ok v')
    (hl : heapLookup su.1.heap r = some t) :
    TaskManager.stepStatus r (some v) su =
      .ok ({ su.1 with heap := heapSet su.1.heap r (fun _ => { t with status := v' }) },
        { su.2 with status := some v' }) := by
  unfold TaskManager.stepStatus
  simp only [hval, hl, setStatus_of_validated t hval]

theorem stepTitle_some_ok {v v' : String} (r : Nat) (su : TMState × UpdateData)
    {t : Task} (hval : validate_title v = .ok v')
    (hl : heapLookup su.1.heap r = some t) :
    TaskManager.stepTitle r (some v) su =
      .ok ({ su.1 with heap := heapSet su.1.heap r (fun _ => { t with title := pyStrip v }) },
        { su.2 with title := some (pyStrip v) }) := by
  unfold TaskManager.stepTitle
  simp only [hval, hl, setTitle_of_validated t hval]

theorem stepTitle_some_err {v : String} {e : PyErr} (r : Nat)
    (su : TMState × UpdateData) (hval : validate_title v = .error e) :
    TaskManager.stepTitle r (some v) su = .error (su.1, e) := by
  unfold TaskManager.stepTitle
  simp only [hval]

theorem stepDescription_some (v : String) (r : Nat) (su : TMState × UpdateData)
    {t : Task} (hl : heapLookup su.1.heap r = some t) :
    TaskManager.stepDescription r (some v) su =
      ({ su.1 with heap := heapSet su.1.heap r (fun _ => { t with description := validate_description v }) },
       { su.2 with description := some (validate_description v) }) := by
  unfold TaskManager.stepDescription
  simp only [hl]
  rfl

theorem stepDueDate_some (v : DateTime) (r : Nat) (su : TMState × UpdateData) :
    TaskManager.stepDueDate r (some v) su =
      ({ su.1 with heap := heapSet su.1.heap r (fun t => { t with due_date := v }) },
       { su.2 with due_date := some v }) := rfl

theorem stepPriority_some_ok {v v' : String} (r : Nat) (su : TMState × UpdateData)
    {t : Task} (hval : validate_priority v = .ok v')
    (hl : heapLookup su.1.heap r = some t) :
    TaskManager.stepPriority r (some v) su =
      .ok ({ su.1 with heap := heapSet su.1.heap r (fun _ => { t with priority := v' }) },
        { su.2 with priority := some v' }) := by
  unfold TaskManager.stepPriority
  simp only [hval, hl, setPriority_of_validated t hval]

theorem stepPriority_some_err {v : String} {e : PyErr} (r : Nat)
    (su : TMState × UpdateData) (hval : validate_priority v = .error e) :
    TaskManager.stepPriority r (some v) su = .error (su.1, e) := by
  unfold TaskManager.stepPriority
  simp only [hval]

theorem stepStatus_some_err {v : String} {e : PyErr} (r : Nat)
    (su : TMState × UpdateData) (hval : validate_status v = .error e) :
    TaskManager.stepStatus r (some v) su = .error (su.1, e) := by
  unfold TaskManager.stepStatus
  simp only [hval]

theorem stepTitle_ok_obs (r : Nat) (su : TMState × UpdateData) {t : Task}
    (hnd : (su.1.heap.map Prod.fst).Nodup)
    (hl : heapLookup su.1.heap r = some t) (title : Option String)
    (hok : badTitle title = false) :
    ∃ u, TaskManager.stepTitle r title su =
      .ok ({ su.1 with heap := heapSet su.1.heap r (updTitleFun title) }, u) := by
  cases title with
  | none =>
    refine ⟨su.2, ?_⟩
    rw [stepTitle_none,
      show updTitleFun (none : Option String) = fun t => t from funext fun t => rfl,
      heapSet_id]
  | some v =>
    cases hval : validate_title v with
    | error e =>
      rw [show badTitle (some v) = isErr (validate_title v) from rfl, hval] at hok
      simp [isErr] at hok
    | ok v' =>
      refine ⟨{ su.2 with title := some (pyStrip v) }, ?_⟩
      rw [stepTitle_some_ok r su hval hl]
      rw [heapSet_congr hnd hl
        (show (fun _ => { t with title := pyStrip v }) t = updTitleFun (some v) t by
          simp [updTitleFun, hval])]

theorem stepDescription_obs (r : Nat) (su : TMState × UpdateData) {t : Task}
    (hnd : (su.1.heap.map Prod.fst).Nodup)
    (hl : heapLookup su.1.heap r = some t) (description : Option String) :
    ∃ u, TaskManager.stepDescription r description su =
      ({ su.1 with heap := heapSet su.1.heap r (updDescFun description) }, u) := by
  cases description with
  | none =>
    refine ⟨su.2, ?_⟩
    rw [stepDescription_none,
      show updDescFun (none : Option String) = fun t => t from funext fun t => rfl,
      heapSet_id]
  | some v =>
    refine ⟨{ su.2 with description := some (validate_description v) }, ?_⟩
    rw [stepDescription_some v r su hl]
    rw [heapSet_congr hnd hl
      (show (fun _ => { t with description := validate_description v }) t =
        updDescFun (some v) t by simp [updDescFun])]

theorem stepDueDate_obs (r : Nat) (su : TMState × UpdateData) {t : Task}
    (hnd : (su.1.heap.map Prod.fst).Nodup)
    (hl : heapLookup su.1.heap r = some t) (due_date : Option DateTime) :
    ∃ u, TaskManager.stepDueDate r due_date su =
      ({ su.1 with heap := heapSet su.1.heap r (updDueFun due_date) }, u) := by
  cases due_date with
  | none =>
    refine ⟨su.2, ?_⟩
    rw [stepDueDate_none,
      show updDueFun (none : Option DateTime) = fun t => t from funext fun t => rfl,
      heapSet_id]
  | some v =>
    refine ⟨{ su.2 with due_date := some v }, ?_⟩
    rw [stepDueDate_some v r su]
    rfl

theorem stepPriority_ok_obs (r : Nat) (su : TMState × UpdateData) {t : Task}
    (hnd : (su.1.heap.map Prod.fst).Nodup)
    (hl : heapLookup su.1.heap r = some t) (priority : Option String)
    (hok : badPriority priority = false) :
    ∃ u, TaskManager.stepPriority r priority su =
      .ok ({ su.1 with heap := heapSet su.1.heap r (updPrioFun priority) }, u) := by
  cases priority with
  | none =>
    refine ⟨su.2, ?_⟩
    rw [stepPriority_none,
      show updPrioFun (none : Option String) = fun t => t from funext fun t => rfl,
      heapSet_id]
  | some v =>
    cases hval : validate_priority v with
    | error e =>
      rw [show badPriority (some v) = isErr (validate_priority v) from rfl, hval] at hok
      simp [isErr] at hok
    | ok v' =>
      refine ⟨{ su.2 with priority := some v' }, ?_⟩
      rw [stepPriority_some_ok r su hval hl]
      rw [heapSet_congr hnd hl
        (show (fun _ => { t with priority := v' }) t = updPrioFun (some v) t by
          simp [updPrioFun, hval])]

theorem stepStatus_ok_obs (r : Nat) (su : TMState × UpdateData) {t : Task}
    (hnd : (su.1.heap.map Prod.fst).Nodup)
    (hl : heapLookup su.1.heap r = some t) (status : Option String)
    (hok : badStatus status = false) :
    ∃ u, TaskManager.stepStatus r status su =
      .ok ({ su.1 with heap := heapSet su.1.heap r (updStatusFun status) }, u) := by
  cases status with
  | none =>
    refine ⟨su.2, ?_⟩
    rw [stepStatus_none,
      show updStatusFun (none : Option String) = fun t => t from funext fun t => rfl,
      heapSet_id]
  | some v =>
    cases hval : validate_status v with
    | error e =>
      rw [show badStatus (some v) = isErr (validate_status v) from rfl, hval] at hok
      simp [isErr] at hok
    | ok v' =>
      refine ⟨{ su.2 with status := some v' }, ?_⟩
      rw [stepStatus_some_ok r su hval hl]
      rw [heapSet_congr hnd hl
        (show (fun _ => { t with status := v' }) t = updStatusFun (some v) t by
          simp [updStatusFun, hval])]

theorem updTitleFun_frame (ti : Option String) (t : Task) :
    (updTitleFun ti t).priority = t.priority ∧ (updTitleFun ti t).status = t.status ∧
    (updTitleFun ti t).task_id = t.task_id ∧
    (updTitleFun ti t).created_at = t.created_at := by
  unfold updTitleFun
  cases ti with
  | none => exact ⟨rfl, rfl, rfl, rfl⟩
  | some v => cases h : validate_title v <;> simp [h]

theorem updDescFun_frame (d : Option String) (t : Task) :
    (updDescFun d t).priority = t.priority ∧ (updDescFun d t).status = t.status ∧
    (updDescFun d t).task_id = t.task_id ∧
    (updDescFun d t).created_at = t.created_at := by
  unfold updDescFun
  cases d with
  | none => exact ⟨rfl, rfl, rfl, rfl⟩
  | some v => exact ⟨rfl, rfl, rfl, rfl⟩

theorem updDueFun_frame (d : Option DateTime) (t : Task) :
    (updDueFun d t).priority = t.priority ∧ (updDueFun d t).status = t.status ∧
    (updDueFun d t).task_id = t.task_id ∧
    (updDueFun d t).created_at = t.created_at := by
  unfold updDueFun
  cases d with
  | none => exact ⟨rfl, rfl, rfl, rfl⟩
  | some v => exact ⟨rfl, rfl, rfl, rfl⟩

theorem updPrioFun_frame (p : Option String) (t : Task) :
    (updPrioFun p t).status = t.status ∧ (updPrioFun p t).task_id = t.task_id ∧
    (updPrioFun p t).created_at = t.created_at := by
  unfold updPrioFun
  cases p with
  | none => exact ⟨rfl, rfl, rfl⟩
  | some v => cases h : validate_priority v <;> simp [h]

theorem updStatusFun_frame (p : Option String) (t : Task) :
    (updStatusFun p t).task_id = t.task_id ∧
    (updStatusFun p t).created_at = t.created_at := by
  unfold updStatusFun
  cases p with
  | none => exact ⟨rfl, rfl⟩
  | some v => cases h : validate_status v <;> simp [h]

/-- Characterization of `update_task` when only a (valid) status is provided
against a resolvable id on a connected store: it succeeds, mutates exactly
the status of the resolved live object, and performs a store `$set` that
preserves ids and every non-status document field. -/
theorem update_status_only (s : TMState) (tid : String) {r : Nat} {t : Task}
    (hget : TaskManager.get_task s tid = some r)
    (hlook : heapLookup s.heap r = some t)
    {v v' : String} (hval : validate_status v = .ok v')
    (hconn : s.db.connected = true) :
    ∃ db', TaskManager.update_task s tid none none none none (some v) =
      ({ s with heap := heapSet s.heap r (fun _ => { t with status := v' }),
                db := db' }, .ok true) ∧
      db'.connected = true ∧
      db'.docs.map TaskDict.task_id = s.db.docs.map TaskDict.task_id ∧
      List.Forall₂ (fun dOld dNew =>
        dNew.task_id = dOld.task_id ∧ dNew.title = dOld.title ∧
        dNew.description = dOld.description ∧ dNew.due_date = dOld.due_date ∧
        dNew.priority = dOld.priority ∧ dNew.created_at = dOld.created_at)
        s.db.docs db'.docs := by
  obtain ⟨db', b, heq, hc', hids, hframe⟩ :=
    store_update_connected hconn t.task_id
      { title := none, description := none, due_date := none, priority := none,
        status := some v' }
  refine ⟨db', ?_, hc', hids, hframe ⟨rfl, rfl, rfl, rfl⟩⟩
  unfold TaskManager.update_task
  simp only [hget, hlook, stepTitle_none, stepDescription_none, stepDueDate_none,
    stepPriority_none,
    stepStatus_some_ok r
      (s, { title := none, description := none, due_date := none,
            priority := none, status := none }) hval hlook,
    UpdateData.isEmpty, Option.isNone, Bool.and_false, Bool.false_and, heq]
  rfl

/-- C8: updating a resolvable task with only a valid status value succeeds
and leaves the cached object's title, description, due date, priority and
creation timestamp unchanged (only its status changes), leaves every other
cached object untouched, and the store write preserves every document's id,
title, description, due date, priority and creation timestamp. -/
theorem C8_update_status_frame (s : TMState) (tid : String) {r : Nat} {t : Task}
    (hget : TaskManager.get_task s tid = some r)
    (hlook : heapLookup s.heap r = some t)
    {v v' : String} (hval : validate_status v = .ok v')
    (hconn : s.db.connected = true) :
    ∃ s', TaskManager.update_task s tid none none none none (some v) =
        (s', .ok true) ∧
      heapLookup s'.heap r = some { t with status := v' } ∧
      (∀ x : Nat, x ≠ r → heapLookup s'.heap x = heapLookup s.heap x) ∧
      List.Forall₂ (fun dOld dNew =>
        dNew.task_id = dOld.task_id ∧ dNew.title = dOld.title ∧
        dNew.description = dOld.description ∧ dNew.due_date = dOld.due_date ∧
        dNew.priority = dOld.priority ∧ dNew.created_at = dOld.created_at)
        s.db.docs s'.db.docs := by
  obtain ⟨db', hupd, hc', hids, hframe⟩ := update_status_only s tid hget hlook hval hconn
  refine ⟨_, hupd, ?_, ?_, hframe⟩
  · show heapLookup (heapSet s.heap r (fun _ => { t with status := v' })) r = _
    rw [heapLookup_heapSet]
    simp [hlook]
  · intro x hx
    show heapLookup (heapSet s.heap r (fun _ => { t with status := v' })) x = _
    rw [heapLookup_heapSet]
    simp [hx]

/-- C8 witness: a concrete status-only update on a two-task state. -/
theorem C8_witness :
    validate_status "Completed" = .ok "Completed" ∧ wState.db.connected = true ∧
    ∃ s', TaskManager.update_task wState "aaa" none none none none
        (some "Completed") = (s', .ok true) ∧
      heapLookup s'.heap 0 = some { wTask1 with status := "Completed" } ∧
      (∀ x : Nat, x ≠ 0 → heapLookup s'.heap x = heapLookup wState.heap x) ∧
      List.Forall₂ (fun dOld dNew =>
        dNew.task_id = dOld.task_id ∧ dNew.title = dOld.title ∧
        dNew.description = dOld.description ∧ dNew.due_date = dOld.due_date ∧
        dNew.priority = dOld.priority ∧ dNew.created_at = dOld.created_at)
        wState.db.docs s'.db.docs :=
  ⟨by decide, rfl,
    C8_update_status_frame wState "aaa" (by decide) (by decide) (by decide) rfl⟩

/-- C10: the empty string resolves through the prefix scan to the
earliest-inserted cache entry — every id starts with the empty prefix — so on
a non-empty cache (whose ids are themselves non-empty) `get_task ""` returns
the first-inserted task rather than not-found, `delete_task ""` deletes
exactly that task, and a status update addressed by `""` mutates exactly that
task; on an empty cache the lookup returns not-found. -/
theorem C10_empty_string_resolution (s : TMState) (hwf : WF s)
    (hne : ∀ p ∈ s.tasks, p.1 ≠ "") :
    (s.tasks = [] → TaskManager.get_task s "" = none) ∧
    (∀ k r rest, s.tasks = (k, r) :: rest →
      TaskManager.get_task s "" = some r ∧
      (s.db.connected = true →
        ∃ s', TaskManager.delete_task s "" = (s', .ok true) ∧
          s'.tasks = rest ∧ s'.task_list = rest.map Prod.snd) ∧
      (∀ v v', validate_status v = .ok v' → s.db.connected = true →
        ∃ s', TaskManager.update_task s "" none none none none (some v) =
            (s', .ok true) ∧
          heapLookup s'.heap r =
            (heapLookup s.heap r).map (fun t => { t with status := v' }) ∧
          (∀ x : Nat, x ≠ r → heapLookup s'.heap x = heapLookup s.heap x))) := by
  obtain ⟨hkeys, -, -, hlive, hlist, -⟩ := hwf
  constructor
  · intro hnil
    rw [get_task_empty s hne, hnil]
    rfl
  · intro k r rest hcons
    have hg : TaskManager.get_task s "" = some r := by
      rw [get_task_empty s hne, hcons]
      rfl
    have hmem : (k, r) ∈ s.tasks := by rw [hcons]; exact List.mem_cons_self _ _
    obtain ⟨t, hlook, htk⟩ : ∃ t, heapLookup s.heap r = some t ∧ t.task_id = k := by
      have := hlive (k, r) hmem
      cases hl : heapLookup s.heap r with
      | none => rw [hl] at this; cases this
      | some t => rw [hl] at this; exact ⟨t, rfl, by simpa using this⟩
    have hknr : ∀ p ∈ rest, p.1 ≠ k := by
      intro p hp hpk
      rw [hcons] at hkeys
      simp only [List.map_cons, List.nodup_cons] at hkeys
      exact hkeys.1 (hpk ▸ List.mem_map_of_mem Prod.fst hp)
    refine ⟨hg, ?_, ?_⟩
    · intro hconn
      obtain ⟨db', b, hdel, hc', hsub⟩ := store_delete_connected hconn t.task_id
      refine ⟨{ s with
          db := db',
          tasks := dictErase s.tasks t.task_id,
          task_list := s.task_list.filter (fun r' =>
            match heapLookup s.heap r' with
            | some t' => t'.task_id != t.task_id
            | none => true) }, ?_, ?_, ?_⟩
      · unfold TaskManager.delete_task
        simp only [hg, hlook, hdel]
      · show dictErase s.tasks t.task_id = rest
        unfold dictErase
        rw [hcons, htk]
        rw [List.filter_cons]
        simp only [bne_self_eq_false, Bool.false_eq_true, if_false]
        apply List.filter_eq_self.mpr
        intro p hp
        simpa using hknr p hp
      · show s.task_list.filter _ = rest.map Prod.snd
        rw [hlist, hcons, List.map_cons, List.filter_cons]
        rw [hlook]
        simp only [htk, bne_self_eq_false, Bool.false_eq_true, if_false]
        apply List.filter_eq_self.mpr
        intro x hx
        obtain ⟨p, hp, rfl⟩ := List.mem_map.mp hx
        obtain ⟨tp, hlp, htp⟩ : ∃ tp, heapLookup s.heap p.2 = some tp ∧
            tp.task_id = p.1 := by
          have := hlive p (by rw [hcons]; exact List.mem_cons_of_mem _ hp)
          cases hl : heapLookup s.heap p.2 with
          | none => rw [hl] at this; cases this
          | some tp => rw [hl] at this; exact ⟨tp, rfl, by simpa using this⟩
        rw [hlp]
        simp [htp, htk, hknr p hp]
    · intro v v' hval hconn
      obtain ⟨db', hupd, -, -, -⟩ := update_status_only s "" hg hlook hval hconn
      refine ⟨_, hupd, ?_, ?_⟩
      · show heapLookup (heapSet s.heap r (fun _ => { t with status := v' })) r = _
        rw [heapLookup_heapSet]
        simp [hlook]
      · intro x hx
        show heapLookup (heapSet s.heap r (fun _ => { t with status := v' })) x = _
        rw [heapLookup_heapSet]
        simp [hx]

/-- C10 witness: on the concrete two-task state, `get ""` returns the
earliest-inserted task and `delete ""` removes exactly it. -/
theorem C10_witness :
    (∀ p ∈ wState.tasks, p.1 ≠ "") ∧
    TaskManager.get_task wState "" = some 0 ∧
    (∃ s', TaskManager.delete_task wState "" = (s', .ok true) ∧
      s'.tasks = [("bbb-2000", 1)] ∧ s'.task_list = [1]) := by
  have h := (C10_empty_string_resolution wState (by decide) (by decide)).2
    "aaa-1000" 0 [("bbb-2000", 1)] rfl
  obtain ⟨s', h1, h2, h3⟩ := h.2.1 rfl
  exact ⟨by decide, h.1, ⟨s', h1, h2, by simpa using h3⟩⟩

theorem task_list_live (s : TMState) (hwf : WF s) :
    ∀ r ∈ s.task_list, (heapLookup s.heap r).isSome = true := by
  obtain ⟨-, -, -, hlive, hlist, -⟩ := hwf
  intro r hr
  rw [hlist] at hr
  obtain ⟨p, hp, rfl⟩ := List.mem_map.mp hr
  have := hlive p hp
  cases h : heapLookup s.heap p.2 with
  | none => rw [h] at this; cases this
  | some t => simp

theorem filter_derefCheck_true {s : TMState} {l : List Nat}
    (hlive : ∀ r ∈ l, (heapLookup s.heap r).isSome = true)
    (p : Task → Bool) (hp : ∀ t, p t = true) :
    l.filter (derefCheck s p) = l := by
  apply List.filter_eq_self.mpr
  intro r hr
  have := hlive r hr
  unfold derefCheck
  cases h : heapLookup s.heap r with
  | none => rw [h] at this; cases this
  | some t => exact hp t

theorem filterByPriority_ok (s : TMState) (priority : Option String) (l : List Nat)
    (hlive : ∀ r ∈ l, (heapLookup s.heap r).isSome = true)
    (hp : ∀ p, priority = some p → p ≠ "" → isErr (validate_priority p) = false) :
    TaskManager.filterByPriority s priority l =
      .ok (l.filter (derefCheck s (critPriority priority))) := by
  cases priority with
  | none =>
    show Except.ok l = Except.ok (l.filter (derefCheck s (critPriority none)))
    rw [filter_derefCheck_true hlive (critPriority none) (fun t => rfl)]
  | some p =>
    show (if p = "" then Except.ok l
      else match validate_priority p with
        | .error e => .error e
        | .ok p' => .ok (l.filter (derefCheck s (fun t => t.priority == p')))) = _
    by_cases hpe : p = ""
    · subst hpe
      rw [if_pos rfl,
        filter_derefCheck_true hlive (critPriority (some "")) (fun t => rfl)]
    · rw [if_neg hpe]
      have herr := hp p rfl hpe
      cases hv : validate_priority p with
      | error e => rw [hv] at herr; cases herr
      | ok p' =>
        show Except.ok (l.filter (derefCheck s (fun t => t.priority == p'))) = _
        congr 1
        apply List.filter_congr
        intro r hr
        unfold derefCheck
        cases heapLookup s.heap r with
        | none => rfl
        | some t => simp [critPriority, hpe, hv, okD]

theorem filterByStatus_ok (s : TMState) (status : Option String) (l : List Nat)
    (hlive : ∀ r ∈ l, (heapLookup s.heap r).isSome = true)
    (hs : ∀ p, status = some p → p ≠ "" → isErr (validate_status p) = false) :
    TaskManager.filterByStatus s status l =
      .ok (l.filter (derefCheck s (critStatus status))) := by
  cases status with
  | none =>
    show Except.ok l = Except.ok (l.filter (derefCheck s (critStatus none)))
    rw [filter_derefCheck_true hlive (critStatus none) (fun t => rfl)]
  | some p =>
    show (if p = "" then Except.ok l
      else match validate_status p with
        | .error e => .error e
        | .ok p' => .ok (l.filter (derefCheck s (fun t => t.status == p')))) = _
    by_cases hpe : p = ""
    · subst hpe
      rw [if_pos rfl,
        filter_derefCheck_true hlive (critStatus (some "")) (fun t => rfl)]
    · rw [if_neg hpe]
      have herr := hs p rfl hpe
      cases hv : validate_status p with
      | error e => rw [hv] at herr; cases herr
      | ok p' =>
        show Except.ok (l.filter (derefCheck s (fun t => t.status == p'))) = _
        congr 1
        apply List.filter_congr
        intro r hr
        unfold derefCheck
        cases heapLookup s.heap r with
        | none => rfl
        | some t => simp [critStatus, hpe, hv, okD]

theorem filterByDueDate_eq (s : TMState) (dd : Option DateTime) (l : List Nat)
    (hlive : ∀ r ∈ l, (heapLookup s.heap r).isSome = true) :
    TaskManager.filterByDueDate s dd l = l.filter (derefCheck s (critDueDate dd)) := by
  cases dd with
  | none =>
    show l = l.filter (derefCheck s (critDueDate none))
    rw [filter_derefCheck_true hlive (critDueDate none) (fun t => rfl)]
  | some d => rfl

theorem filterByDueBefore_eq (s : TMState) (dd : Option DateTime) (l : List Nat)
    (hlive : ∀ r ∈ l, (heapLookup s.heap r).isSome = true) :
    TaskManager.filterByDueBefore s dd l = l.filter (derefCheck s (critDueBefore dd)) := by
  cases dd with
  | none =>
    show l = l.filter (derefCheck s (critDueBefore none))
    rw [filter_derefCheck_true hlive (critDueBefore none) (fun t => rfl)]
  | some d => rfl

theorem filterByDueAfter_eq (s : TMState) (dd : Option DateTime) (l : List Nat)
    (hlive : ∀ r ∈ l, (heapLookup s.heap r).isSome = true) :
    TaskManager.filterByDueAfter s dd l = l.filter (derefCheck s (critDueAfter dd)) := by
  cases dd with
  | none =>
    show l = l.filter (derefCheck s (critDueAfter none))
    rw [filter_derefCheck_true hlive (critDueAfter none) (fun t => rfl)]
  | some d => rfl

/-- C6: with every provided textual criterion valid, `filter_tasks` returns
exactly the cache's task list — in its iteration order — filtered by the
conjunction of the five criteria predicates: priority and status compare
against the validated value, `due_date` compares calendar days only, the two
bounds compare full date-times strictly, an omitted criterion imposes no
constraint, and the call with no criteria returns every cached task. -/
theorem C6_filter_conjunction (s : TMState) (hwf : WF s)
    (priority status : Option String)
    (due_date due_date_before due_date_after : Option DateTime)
    (hp : ∀ p, priority = some p → p ≠ "" → isErr (validate_priority p) = false)
    (hs : ∀ p, status = some p → p ≠ "" → isErr (validate_status p) = false) :
    TaskManager.filter_tasks s priority status due_date due_date_before
        due_date_after =
      .ok (s.task_list.filter (derefCheck s (fun t =>
        critPriority priority t && critStatus status t && critDueDate due_date t &&
        critDueBefore due_date_before t && critDueAfter due_date_after t))) ∧
    TaskManager.filter_tasks s none none none none none = .ok s.task_list := by
  have hl0 := task_list_live s hwf
  have hl1 : ∀ r ∈ s.task_list.filter (derefCheck s (critPriority priority)),
      (heapLookup s.heap r).isSome = true :=
    fun r hr => hl0 r (List.mem_of_mem_filter hr)
  have hl2 : ∀ r ∈ (s.task_list.filter (derefCheck s (critPriority priority))).filter
        (derefCheck s (critStatus status)),
      (heapLookup s.heap r).isSome = true :=
    fun r hr => hl1 r (List.mem_of_mem_filter hr)
  have hl3 : ∀ r ∈ ((s.task_list.filter (derefCheck s (critPriority priority))).filter
        (derefCheck s (critStatus status))).filter (derefCheck s (critDueDate due_date)),
      (heapLookup s.heap r).isSome = true :=
    fun r hr => hl2 r (List.mem_of_mem_filter hr)
  have hl4 : ∀ r ∈ (((s.task_list.filter (derefCheck s (critPriority priority))).filter
        (derefCheck s (critStatus status))).filter
          (derefCheck s (critDueDate due_date))).filter
            (derefCheck s (critDueBefore due_date_before)),
      (heapLookup s.heap r).isSome = true :=
    fun r hr => hl3 r (List.mem_of_mem_filter hr)
  constructor
  · unfold TaskManager.filter_tasks
    simp only [filterByPriority_ok s priority s.task_list hl0 hp,
      filterByStatus_ok s status _ hl1 hs,
      filterByDueDate_eq s due_date _ hl2,
      filterByDueBefore_eq s due_date_before _ hl3,
      filterByDueAfter_eq s due_date_after _ hl4]
    simp only [List.filter_filter]
    congr 1
    apply List.filter_congr
    intro r hr
    unfold derefCheck
    cases heapLookup s.heap r with
    | none => rfl
    | some t =>
      dsimp only
      cases critPriority priority t <;> cases critStatus status t <;>
        cases critDueDate due_date t <;> cases critDueBefore due_date_before t <;>
        cases critDueAfter due_date_after t <;> rfl
  · rfl

/-- C6 witness: a priority filter on the concrete two-task state returns
exactly the matching entry, and the empty criteria set returns the whole
cache. -/
theorem C6_witness :
    TaskManager.filter_tasks wState (some "High") none none none none =
        .ok [0] ∧
    TaskManager.filter_tasks wState none none none none none = .ok [0, 1] := by
  have h := C6_filter_conjunction wState (by decide) (some "High") none none none
    none (by intro p hp hne; cases hp; decide) (by intro p hp hne; cases hp)
  refine ⟨?_, h.2⟩
  rw [h.1]
  decide

theorem dtLe_trans {a b c : DateTime} (h1 : a.le b = true) (h2 : b.le c = true) :
    a.le c = true := by
  unfold DateTime.le at *
  simp only [Bool.or_eq_true, Bool.and_eq_true, decide_eq_true_eq, beq_iff_eq] at *
  omega

theorem dtLe_total (a b : DateTime) : (a.le b || b.le a) = true := by
  unfold DateTime.le
  simp only [Bool.or_eq_true, Bool.and_eq_true, decide_eq_true_eq, beq_iff_eq]
  omega

theorem keyLe_trans (sb : String) (a b c : Task)
    (h1 : TaskManager.keyLe sb a b = true) (h2 : TaskManager.keyLe sb b c = true) :
    TaskManager.keyLe sb a c = true := by
  unfold TaskManager.keyLe at *
  by_cases e1 : sb = "priority"
  · simp only [if_pos e1, decide_eq_true_eq] at *
    omega
  · simp only [if_neg e1] at *
    by_cases e2 : sb = "status"
    · simp only [if_pos e2, decide_eq_true_eq] at *
      omega
    · simp only [if_neg e2] at *
      by_cases e3 : sb = "title"
      · simp only [if_pos e3, decide_eq_true_eq] at *
        exact le_trans h1 h2
      · simp only [if_neg e3] at *
        by_cases e4 : sb = "due_date"
        · simp only [if_pos e4] at *
          exact dtLe_trans h1 h2
        · simp only [if_neg e4] at *
          exact dtLe_trans h1 h2

theorem keyLe_total (sb : String) (a b : Task) :
    (TaskManager.keyLe sb a b || TaskManager.keyLe sb b a) = true := by
  unfold TaskManager.keyLe
  by_cases e1 : sb = "priority"
  · simp only [if_pos e1, Bool.or_eq_true, decide_eq_true_eq]
    omega
  · simp only [if_neg e1]
    by_cases e2 : sb = "status"
    · simp only [if_pos e2, Bool.or_eq_true, decide_eq_true_eq]
      omega
    · simp only [if_neg e2]
      by_cases e3 : sb = "title"
      · simp only [if_pos e3, Bool.or_eq_true, decide_eq_true_eq]
        exact le_total _ _
      · simp only [if_neg e3]
        by_cases e4 : sb = "due_date"
        · simp only [if_pos e4]
          exact dtLe_total _ _
        · simp only [if_neg e4]
          exact dtLe_total _ _

/-- C5: `sort_tasks` rejects any key outside {created_at, due_date, priority,
status, title} with the invalid-sort-field `ValueError`; for a valid key it
returns a permutation of its input that is sorted by the key's comparison —
priority by rank High(3) > Medium(2) > Low(1), status by rank Pending(1) <
In Progress(2) < Completed(3), title case-insensitively, the two date fields
chronologically, as recorded in `keyLe` — ascending by default and descending
when `reverse` is set, and the sort is stable: any two elements whose keys
compare equal appear in the output in their input order. -/
theorem C5_sort_tasks (tasks : List Task) (sort_by : String) (rev : Bool) :
    (sort_by ∉ TaskManager.valid_sort_fields →
      TaskManager.sort_tasks tasks sort_by rev = .error (.valueError
        "Invalid sort field. Must be one of: created_at, due_date, priority, status, title")) ∧
    (sort_by ∈ TaskManager.valid_sort_fields →
      ∃ l', TaskManager.sort_tasks tasks sort_by rev = .ok l' ∧
        l'.Perm tasks ∧
        (rev = false →
          l'.Pairwise (fun a b => TaskManager.keyLe sort_by a b = true)) ∧
        (rev = true →
          l'.Pairwise (fun a b => TaskManager.keyLe sort_by b a = true)) ∧
        (∀ a b : Task, TaskManager.keyLe sort_by a b = true →
          TaskManager.keyLe sort_by b a = true →
          [a, b].Sublist tasks → [a, b].Sublist l')) := by
  constructor
  · intro hbad
    unfold TaskManager.sort_tasks
    rw [if_pos hbad]
  · intro hgood
    unfold TaskManager.sort_tasks
    rw [if_neg (by simp [hgood])]
    cases rev with
    | false =>
      refine ⟨tasks.mergeSort (TaskManager.keyLe sort_by), rfl,
        List.mergeSort_perm tasks _, fun _ => ?_, fun h => absurd h (by decide), ?_⟩
      · exact List.sorted_mergeSort (keyLe_trans sort_by) (keyLe_total sort_by)
          tasks
      · intro a b hab hba hsub
        apply List.sublist_mergeSort (keyLe_trans sort_by) (keyLe_total sort_by)
        · exact List.pairwise_cons.mpr
            ⟨fun x hx => by rw [List.mem_singleton.mp hx]; exact hab,
             List.pairwise_singleton _ _⟩
        · exact hsub
    | true =>
      refine ⟨tasks.mergeSort (fun a b => TaskManager.keyLe sort_by b a), rfl,
        List.mergeSort_perm tasks _, fun h => absurd h (by decide), fun _ => ?_, ?_⟩
      · exact List.sorted_mergeSort
          (fun a b c h1 h2 => keyLe_trans sort_by c b a h2 h1)
          (fun a b => by rw [Bool.or_comm]; exact keyLe_total sort_by a b) tasks
      · intro a b hab hba hsub
        apply List.sublist_mergeSort
          (fun a b c h1 h2 => keyLe_trans sort_by c b a h2 h1)
          (fun a b => by rw [Bool.or_comm]; exact keyLe_total sort_by a b)
        · exact List.pairwise_cons.mpr
            ⟨fun x hx => by rw [List.mem_singleton.mp hx]; exact hba,
             List.pairwise_singleton _ _⟩
        · exact hsub

/-- C5 witness: sorting three concrete tasks by priority ascending. -/
theorem C5_witness :
    "priority" ∈ TaskManager.valid_sort_fields ∧
    ∃ l', TaskManager.sort_tasks [wTask1, wTask2] "priority" false = .ok l' ∧
      l'.Perm [wTask1, wTask2] ∧
      (false = false →
        l'.Pairwise (fun a b => TaskManager.keyLe "priority" a b = true)) ∧
      (false = true →
        l'.Pairwise (fun a b => TaskManager.keyLe "priority" b a = true)) ∧
      (∀ a b : Task, TaskManager.keyLe "priority" a b = true →
        TaskManager.keyLe "priority" b a = true →
        [a, b].Sublist [wTask1, wTask2] → [a, b].Sublist l') :=
  ⟨by decide, (C5_sort_tasks [wTask1, wTask2] "priority" false).2 (by decide)⟩

theorem from_dict_task_id (d : TaskDict) (now : DateTime) :
    (Task.from_dict d now).task_id = d.task_id := rfl

theorem allocRun_snd (n0 : Nat) (ts : List Task) :
    (allocRun n0 ts).map Prod.snd = ts := by
  induction ts generalizing n0 with
  | nil => rfl
  | cons t ts ih => simp [allocRun, ih]

theorem allocRun_fst_ge (n0 : Nat) (ts : List Task) :
    ∀ p ∈ allocRun n0 ts, n0 ≤ p.1 := by
  induction ts generalizing n0 with
  | nil => intro p hp; cases hp
  | cons t ts ih =>
    intro p hp
    rcases List.mem_cons.mp hp with rfl | hp'
    · exact le_refl _
    · exact le_trans (Nat.le_succ n0) (ih (n0 + 1) p hp')

theorem allocRun_fst_lt (n0 : Nat) (ts : List Task) :
    ∀ p ∈ allocRun n0 ts, p.1 < n0 + ts.length := by
  induction ts generalizing n0 with
  | nil => intro p hp; cases hp
  | cons t ts ih =>
    intro p hp
    rcases List.mem_cons.mp hp with rfl | hp'
    · simp
    · have := ih (n0 + 1) p hp'
      simp only [List.length_cons]
      omega

theorem allocRun_fst_nodup (n0 : Nat) (ts : List Task) :
    ((allocRun n0 ts).map Prod.fst).Nodup := by
  induction ts generalizing n0 with
  | nil => exact List.nodup_nil
  | cons t ts ih =>
    simp only [allocRun, List.map_cons, List.nodup_cons]
    refine ⟨?_, ih (n0 + 1)⟩
    intro hmem
    obtain ⟨p, hp, hpe⟩ := List.mem_map.mp hmem
    have := allocRun_fst_ge (n0 + 1) ts p hp
    omega

theorem allocRun_derefs (ts : List Task) (n0 : Nat) (h : List (Nat × Task))
    (hh : ∀ p ∈ h, p.1 < n0) :
    ((allocRun n0 ts).map Prod.fst).map
        (fun r => heapLookup (h ++ allocRun n0 ts) r) = ts.map some := by
  induction ts generalizing n0 h with
  | nil => simp [allocRun]
  | cons t ts ih =>
    simp only [allocRun, List.map_cons]
    have hhead : heapLookup (h ++ (n0, t) :: allocRun (n0 + 1) ts) n0 = some t := by
      unfold heapLookup
      rw [List.find?_append]
      have hnone : h.find? (fun q => q.1 == n0) = none :=
        List.find?_eq_none.mpr (fun p hp => by
          have := hh p hp
          simp
          omega)
      rw [hnone, List.find?_cons_of_pos _ (by simp)]
      rfl
    rw [hhead]
    congr 1
    have hassoc : h ++ (n0, t) :: allocRun (n0 + 1) ts =
        (h ++ [(n0, t)]) ++ allocRun (n0 + 1) ts := by
      simp
    rw [hassoc]
    apply ih (n0 + 1) (h ++ [(n0, t)])
    intro p hp
    rcases List.mem_append.mp hp with h1 | h2
    · exact Nat.lt_succ_of_lt (hh p h1)
    · rw [List.mem_singleton.mp h2]
      exact Nat.lt_succ_self n0

/-- Net effect of the reload loop: starting from an accumulator whose dict
keys avoid the (distinct) incoming ids, the loop appends one fresh object per
task to the heap, appends the (id, reference) pairs to the dict and the
references to the list, and advances the allocator. -/
theorem load_fold_eq (ts : List Task) (acc : TMState)
    (hnd : (ts.map Task.task_id).Nodup)
    (hdisj : ∀ t ∈ ts, ∀ p ∈ acc.tasks, p.1 ≠ t.task_id) :
    ts.foldl (fun acc t =>
      { acc with heap := acc.heap ++ [(acc.nextRef, t)],
                 nextRef := acc.nextRef + 1,
                 tasks := dictInsert acc.tasks t.task_id acc.nextRef,
                 task_list := acc.task_list ++ [acc.nextRef] }) acc =
    { acc with heap := acc.heap ++ allocRun acc.nextRef ts,
               nextRef := acc.nextRef + ts.length,
               tasks := acc.tasks ++
                 (allocRun acc.nextRef ts).map (fun p => (p.2.task_id, p.1)),
               task_list := acc.task_list ++
                 (allocRun acc.nextRef ts).map Prod.fst } := by
  induction ts generalizing acc with
  | nil => simp [allocRun]
  | cons t ts ih =>
    rw [List.foldl_cons]
    rw [List.map_cons, List.nodup_cons] at hnd
    have hins : dictInsert acc.tasks t.task_id acc.nextRef =
        acc.tasks ++ [(t.task_id, acc.nextRef)] :=
      dictInsert_append (fun p hp => hdisj t (List.mem_cons_self t ts) p hp)
    rw [ih _ hnd.2 ?hdisj]
    case hdisj =>
      intro t' ht' p hp
      simp only [hins, List.mem_append, List.mem_singleton] at hp
      rcases hp with hp | rfl
      · exact hdisj t' (List.mem_cons_of_mem t ht') p hp
      · show t.task_id ≠ t'.task_id
        intro he
        exact hnd.1 (he ▸ List.mem_map_of_mem Task.task_id ht')
    simp only [hins, allocRun, List.map_cons, List.length_cons,
      List.append_assoc, List.singleton_append, List.cons_append]
    congr 1
    omega

theorem allocRun_length (n0 : Nat) (ts : List Task) :
    (allocRun n0 ts).length = ts.length := by
  induction ts generalizing n0 with
  | nil => rfl
  | cons t ts ih => simp [allocRun, ih]

/-- C1 counterexample: the claim says `load_tasks_from_db` returns the count
of loaded tasks and, when the store read fails, fails with a store error
rather than returning normally.  In fact the method catches the error and
returns normally with `False`, leaving the cache exactly as it was (not even
cleared), and on success it returns the constant `True` — the same value for
a 2-document store and an empty store, so the return carries no count. -/
theorem C1_counterexample :
    TaskManager.load_tasks_from_db
        ⟨[(0, wTask1)], 1, [("aaa-1000", 0)], [0], ⟨false, []⟩⟩ ⟨0, 0⟩ =
      (⟨[(0, wTask1)], 1, [("aaa-1000", 0)], [0], ⟨false, []⟩⟩, false) ∧
    (TaskManager.load_tasks_from_db wState ⟨0, 0⟩).2 = true ∧
    (TaskManager.load_tasks_from_db ⟨[], 0, [], [], ⟨true, []⟩⟩ ⟨0, 0⟩).2 = true ∧
    wState.db.docs.length ≠
      (⟨[], 0, [], [], ⟨true, []⟩⟩ : TMState).db.docs.length := by
  refine ⟨rfl, rfl, rfl, by decide⟩

/-- C1 amended: `load_tasks_from_db` reads the full store scan and, on
success, clears the cache and repopulates it with exactly the scanned tasks
(in scan order, one fresh object per document) and returns `True`; if the
store read fails it catches the error and returns `False` normally, leaving
the cache unchanged — the read happens before the clear, so nothing is
cleared on failure. -/
theorem C1_amended_load (s : TMState) (hwf : WF s) (now : DateTime) :
    (s.db.connected = false → TaskManager.load_tasks_from_db s now = (s, false)) ∧
    (s.db.connected = true →
      ∃ s', TaskManager.load_tasks_from_db s now = (s', true) ∧
        s'.task_list.map (fun r => heapLookup s'.heap r) =
          s.db.docs.map (fun d => some (Task.from_dict d now)) ∧
        s'.tasks.map Prod.fst = s.db.docs.map TaskDict.task_id ∧
        s'.task_list.length = s.db.docs.length ∧
        s'.db = s.db) := by
  obtain ⟨-, -, hfresh, -, -, hdb⟩ := hwf
  constructor
  · intro hc
    unfold TaskManager.load_tasks_from_db Store.get_all_tasks
    rw [hc]
    rfl
  · intro hc
    have hids : ((s.db.docs.map (fun d => Task.from_dict d now)).map
        Task.task_id) = s.db.docs.map TaskDict.task_id := by
      rw [List.map_map]
      rfl
    have hnd : ((s.db.docs.map (fun d => Task.from_dict d now)).map
        Task.task_id).Nodup := by rw [hids]; exact hdb
    have hscan : s.db.get_all_tasks now =
        .ok (s.db.docs.map (fun d => Task.from_dict d now)) := by
      unfold Store.get_all_tasks
      rw [hc]
      rfl
    have hfold := load_fold_eq (s.db.docs.map (fun d => Task.from_dict d now))
      { s with tasks := [], task_list := [] } hnd (fun t _ p hp => by cases hp)
    refine ⟨{ s with
        heap := s.heap ++
          allocRun s.nextRef (s.db.docs.map (fun d => Task.from_dict d now)),
        nextRef := s.nextRef +
          (s.db.docs.map (fun d => Task.from_dict d now)).length,
        tasks := (allocRun s.nextRef
          (s.db.docs.map (fun d => Task.from_dict d now))).map
            (fun p => (p.2.task_id, p.1)),
        task_list := (allocRun s.nextRef
          (s.db.docs.map (fun d => Task.from_dict d now))).map Prod.fst },
      ?_, ?_, ?_, ?_, rfl⟩
    · unfold TaskManager.load_tasks_from_db
      simp only [hscan]
      rw [hfold]
      rfl
    · show ((allocRun s.nextRef _).map Prod.fst).map
          (fun r => heapLookup (s.heap ++ allocRun s.nextRef _) r) = _
      rw [allocRun_derefs _ s.nextRef s.heap hfresh, List.map_map]
      rfl
    · show ((allocRun s.nextRef _).map (fun p => (p.2.task_id, p.1))).map
          Prod.fst = _
      rw [List.map_map]
      have : (Prod.fst ∘ fun p : Nat × Task => (p.2.task_id, p.1)) =
          (fun p : Nat × Task => p.2.task_id) := rfl
      rw [this, show (fun p : Nat × Task => p.2.task_id) =
        (Task.task_id ∘ Prod.snd) from rfl, ← List.map_map, allocRun_snd, hids]
    · show (([] : List Nat) ++ (allocRun s.nextRef _).map Prod.fst).length = _
      simp [allocRun_length]

/-- C1 witness: reloading the concrete two-task state from its connected
store succeeds and repopulates the cache with exactly the two scanned
documents. -/
theorem C1_witness :
    WF wState ∧ wState.db.connected = true ∧
    ∃ s', TaskManager.load_tasks_from_db wState ⟨9, 9⟩ = (s', true) ∧
      s'.task_list.map (fun r => heapLookup s'.heap r) =
        wState.db.docs.map (fun d => some (Task.from_dict d ⟨9, 9⟩)) ∧
      s'.tasks.map Prod.fst = wState.db.docs.map TaskDict.task_id ∧
      s'.task_list.length = wState.db.docs.length ∧
      s'.db = wState.db :=
  ⟨by decide, rfl, (C1_amended_load wState (by decide) ⟨9, 9⟩).2 rfl⟩

/-- C3: when some provided field of `update_task` fails validation, the call
raises that validation error and writes nothing to the store, but the live
cached object keeps every mutation made by the blocks that ran before the
failing one: with a bad title nothing is applied; with a good title but bad
priority, the provided title, description and due date are already applied
while priority and status are untouched; with good title and priority but
bad status, the provided priority is applied too and only status is
untouched.  The cache structures and every other cached object are
unchanged. -/
theorem C3_update_validation_failure (s : TMState) (hwf : WF s) (tid : String)
    {r : Nat} {t0 : Task}
    (hget : TaskManager.get_task s tid = some r)
    (hlook : heapLookup s.heap r = some t0)
    (title description : Option String) (due_date : Option DateTime)
    (priority status : Option String)
    (hbad : badTitle title = true ∨ badPriority priority = true ∨
      badStatus status = true) :
    ∃ s' e, TaskManager.update_task s tid title description due_date priority
        status = (s', .error e) ∧
      s'.db = s.db ∧ s'.tasks = s.tasks ∧ s'.task_list = s.task_list ∧
      (∀ x : Nat, x ≠ r → heapLookup s'.heap x = heapLookup s.heap x) ∧
      ∃ t', heapLookup s'.heap r = some t' ∧
        (badTitle title = true → t' = t0 ∧ s' = s) ∧
        (badTitle title = false → badPriority priority = true →
          t' = updDueFun due_date (updDescFun description (updTitleFun title t0)) ∧
          t'.priority = t0.priority ∧ t'.status = t0.status ∧
          t'.task_id = t0.task_id ∧ t'.created_at = t0.created_at) ∧
        (badTitle title = false → badPriority priority = false →
          t' = updPrioFun priority (updDueFun due_date
            (updDescFun description (updTitleFun title t0))) ∧
          t'.status = t0.status ∧ t'.task_id = t0.task_id ∧
          t'.created_at = t0.created_at) := by
  obtain ⟨-, hnd0, -, -, -, -⟩ := hwf
  by_cases hbt : badTitle title = true
  · cases title with
    | none => simp [badTitle] at hbt
    | some v =>
      cases hval : validate_title v with
      | ok v' =>
        rw [show badTitle (some v) = isErr (validate_title v) from rfl, hval] at hbt
        simp [isErr] at hbt
      | error e =>
        refine ⟨s, e, ?_, rfl, rfl, rfl, fun x hx => rfl, t0, hlook, ?_, ?_, ?_⟩
        · unfold TaskManager.update_task
          simp only [hget, hlook, stepTitle_some_err r _ hval]
        · exact fun _ => ⟨rfl, rfl⟩
        · intro hf
          rw [show badTitle (some v) = isErr (validate_title v) from rfl, hval] at hf
          simp [isErr] at hf
        · intro hf
          rw [show badTitle (some v) = isErr (validate_title v) from rfl, hval] at hf
          simp [isErr] at hf
  · have hbt' : badTitle title = false := by
      cases hb2 : badTitle title with
      | false => rfl
      | true => exact absurd hb2 hbt
    obtain ⟨u1, h1⟩ := stepTitle_ok_obs r (s, {}) hnd0 hlook title hbt'
    have hnd1 : ((heapSet s.heap r (updTitleFun title)).map Prod.fst).Nodup := by
      rw [heapSet_map_fst]
      exact hnd0
    have hl1 : heapLookup (heapSet s.heap r (updTitleFun title)) r =
        some (updTitleFun title t0) := by
      rw [heapLookup_heapSet]
      simp [hlook]
    obtain ⟨u2, h2⟩ := stepDescription_obs r
      ({ s with heap := heapSet s.heap r (updTitleFun title) }, u1) hnd1 hl1
      description
    have hnd2 : ((heapSet (heapSet s.heap r (updTitleFun title)) r
        (updDescFun description)).map Prod.fst).Nodup := by
      rw [heapSet_map_fst, heapSet_map_fst]
      exact hnd0
    have hl2 : heapLookup (heapSet (heapSet s.heap r (updTitleFun title)) r
        (updDescFun description)) r =
        some (updDescFun description (updTitleFun title t0)) := by
      rw [heapLookup_heapSet]
      simp [hl1]
    obtain ⟨u3, h3⟩ := stepDueDate_obs r
      ({ s with heap := heapSet (heapSet s.heap r (updTitleFun title)) r (updDescFun description) }, u2)
      hnd2 hl2 due_date
    have hnd3 : ((heapSet (heapSet (heapSet s.heap r (updTitleFun title)) r
        (updDescFun description)) r (updDueFun due_date)).map Prod.fst).Nodup := by
      rw [heapSet_map_fst, heapSet_map_fst, heapSet_map_fst]
      exact hnd0
    have hl3 : heapLookup (heapSet (heapSet (heapSet s.heap r
        (updTitleFun title)) r (updDescFun description)) r
        (updDueFun due_date)) r =
        some (updDueFun due_date (updDescFun description (updTitleFun title t0))) := by
      rw [heapLookup_heapSet]
      simp [hl2]
    by_cases hbp : badPriority priority = true
    · cases priority with
      | none => simp [badPriority] at hbp
      | some v =>
        cases hval : validate_priority v with
        | ok v' =>
          rw [show badPriority (some v) = isErr (validate_priority v) from rfl,
            hval] at hbp
          simp [isErr] at hbp
        | error e =>
          refine ⟨{ s with heap := heapSet (heapSet (heapSet s.heap r (updTitleFun title)) r (updDescFun description)) r (updDueFun due_date) },
            e, ?_, rfl, rfl, rfl, ?_,
            updDueFun due_date (updDescFun description (updTitleFun title t0)),
            hl3, ?_, ?_, ?_⟩
          · unfold TaskManager.update_task
            simp only [hget, hlook, h1, h2, h3, stepPriority_some_err r _ hval]
          · intro x hx
            show heapLookup (heapSet (heapSet (heapSet s.heap r _) r _) r _) x = _
            rw [heapLookup_heapSet, if_neg hx, heapLookup_heapSet, if_neg hx,
              heapLookup_heapSet, if_neg hx]
          · intro hf
            rw [hf] at hbt'
            cases hbt'
          · intro _ _
            refine ⟨rfl, ?_, ?_, ?_, ?_⟩
            · exact (updDueFun_frame _ _).1.trans
                ((updDescFun_frame _ _).1.trans (updTitleFun_frame _ _).1)
            · exact (updDueFun_frame _ _).2.1.trans
                ((updDescFun_frame _ _).2.1.trans (updTitleFun_frame _ _).2.1)
            · exact (updDueFun_frame _ _).2.2.1.trans
                ((updDescFun_frame _ _).2.2.1.trans (updTitleFun_frame _ _).2.2.1)
            · exact (updDueFun_frame _ _).2.2.2.trans
                ((updDescFun_frame _ _).2.2.2.trans (updTitleFun_frame _ _).2.2.2)
          · intro _ hf
            rw [hf] at hbp
            cases hbp
    · have hbp' : badPriority priority = false := by
        cases hb2 : badPriority priority with
        | false => rfl
        | true => exact absurd hb2 hbp
      have hbs : badStatus status = true := by
        rcases hbad with h | h | h
        · exact absurd h hbt
        · exact absurd h hbp
        · exact h
      obtain ⟨u4, h4⟩ := stepPriority_ok_obs r
        ({ s with heap := heapSet (heapSet (heapSet s.heap r (updTitleFun title)) r (updDescFun description)) r (updDueFun due_date) }, u3)
        hnd3 hl3 priority hbp'
      have hl4 : heapLookup (heapSet (heapSet (heapSet (heapSet s.heap r
          (updTitleFun title)) r (updDescFun description)) r
          (updDueFun due_date)) r (updPrioFun priority)) r =
          some (updPrioFun priority (updDueFun due_date
            (updDescFun description (updTitleFun title t0)))) := by
        rw [heapLookup_heapSet]
        simp [hl3]
      cases status with
      | none => simp [badStatus] at hbs
      | some v =>
        cases hval : validate_status v with
        | ok v' =>
          rw [show badStatus (some v) = isErr (validate_status v) from rfl,
            hval] at hbs
          simp [isErr] at hbs
        | error e =>
          refine ⟨{ s with heap := heapSet (heapSet (heapSet (heapSet s.heap r (updTitleFun title)) r (updDescFun description)) r (updDueFun due_date)) r (updPrioFun priority) },
            e, ?_, rfl, rfl, rfl, ?_,
            updPrioFun priority (updDueFun due_date
              (updDescFun description (updTitleFun title t0))),
            hl4, ?_, ?_, ?_⟩
          · unfold TaskManager.update_task
            simp only [hget, hlook, h1, h2, h3, h4, stepStatus_some_err r _ hval]
          · intro x hx
            show heapLookup (heapSet (heapSet (heapSet (heapSet s.heap r _) r _)
              r _) r _) x = _
            rw [heapLookup_heapSet, if_neg hx, heapLookup_heapSet, if_neg hx,
              heapLookup_heapSet, if_neg hx, heapLookup_heapSet, if_neg hx]
          · intro hf
            rw [hf] at hbt'
            cases hbt'
          · intro _ hf
            rw [hf] at hbp'
            cases hbp'
          · intro _ _
            refine ⟨rfl, ?_, ?_, ?_⟩
            · exact (updPrioFun_frame _ _).1.trans
                ((updDueFun_frame _ _).2.1.trans
                  ((updDescFun_frame _ _).2.1.trans (updTitleFun_frame _ _).2.1))
            · exact (updPrioFun_frame _ _).2.1.trans
                ((updDueFun_frame _ _).2.2.1.trans
                  ((updDescFun_frame _ _).2.2.1.trans
                    (updTitleFun_frame _ _).2.2.1))
            · exact (updPrioFun_frame _ _).2.2.trans
                ((updDueFun_frame _ _).2.2.2.trans
                  ((updDescFun_frame _ _).2.2.2.trans
                    (updTitleFun_frame _ _).2.2.2))

/-- C3 witness: a concrete update with a valid new title but the invalid
priority `"Urgent"` raises, writes nothing to the store, and leaves the
cached object with the new title already applied and priority/status
untouched. -/
theorem C3_witness :
    WF wState ∧ badPriority (some "Urgent") = true ∧
    ∃ s' e, TaskManager.update_task wState "bbb" (some "NewTitle") none none
        (some "Urgent") none = (s', .error e) ∧
      s'.db = wState.db ∧ s'.tasks = wState.tasks ∧
      s'.task_list = wState.task_list ∧
      (∀ x : Nat, x ≠ 1 → heapLookup s'.heap x = heapLookup wState.heap x) ∧
      ∃ t', heapLookup s'.heap 1 = some t' ∧
        (badTitle (some "NewTitle") = true → t' = wTask2 ∧ s' = wState) ∧
        (badTitle (some "NewTitle") = false →
          badPriority (some "Urgent") = true →
          t' = updDueFun none (updDescFun none
            (updTitleFun (some "NewTitle") wTask2)) ∧
          t'.priority = wTask2.priority ∧ t'.status = wTask2.status ∧
          t'.task_id = wTask2.task_id ∧ t'.created_at = wTask2.created_at) ∧
        (badTitle (some "NewTitle") = false →
          badPriority (some "Urgent") = false →
          t' = updPrioFun (some "Urgent") (updDueFun none (updDescFun none
            (updTitleFun (some "NewTitle") wTask2))) ∧
          t'.status = wTask2.status ∧ t'.task_id = wTask2.task_id ∧
          t'.created_at = wTask2.created_at) :=
  ⟨by decide, by decide,
    C3_update_validation_failure wState (by decide) "bbb"
      (by decide : TaskManager.get_task wState "bbb" = some 1)
      (by decide : heapLookup wState.heap 1 = some wTask2)
      (some "NewTitle") none none (some "Urgent") none
      (Or.inr (Or.inl (by decide)))⟩

theorem allocRun_lookup_mem (ts : List Task) (n0 : Nat) (h : List (Nat × Task))
    (hh : ∀ p ∈ h, p.1 < n0) :
    ∀ q ∈ allocRun n0 ts, heapLookup (h ++ allocRun n0 ts) q.1 = some q.2 := by
  induction ts generalizing n0 h with
  | nil => intro q hq; cases hq
  | cons t ts ih =>
    intro q hq
    rcases List.mem_cons.mp hq with rfl | hq'
    · show heapLookup (h ++ (n0, t) :: allocRun (n0 + 1) ts) n0 = some t
      unfold heapLookup
      rw [List.find?_append]
      have hnone : h.find? (fun p => p.1 == n0) = none :=
        List.find?_eq_none.mpr (fun p hp => by
          have := hh p hp
          simp
          omega)
      rw [hnone, List.find?_cons_of_pos _ (by simp)]
      rfl
    · have hassoc : h ++ (n0, t) :: allocRun (n0 + 1) ts =
          (h ++ [(n0, t)]) ++ allocRun (n0 + 1) ts := by simp
      show heapLookup (h ++ (n0, t) :: allocRun (n0 + 1) ts) q.1 = some q.2
      rw [hassoc]
      apply ih (n0 + 1) (h ++ [(n0, t)]) ?_ q hq'
      intro p hp
      rcases List.mem_append.mp hp with h1 | h2
      · exact Nat.lt_succ_of_lt (hh p h1)
      · rw [List.mem_singleton.mp h2]
        exact Nat.lt_succ_self n0

theorem store_update_ids (st : Store) (k : String) (u : UpdateData) :
    (st.update_task k u).1.docs.map TaskDict.task_id =
      st.docs.map TaskDict.task_id := by
  unfold Store.update_task
  by_cases hc : st.connected
  · simp only [hc]
    cases hf : st.docs.find? (fun d => d.task_id == k) with
    | none => rfl
    | some d =>
      show (setFirstDoc st.docs k u).map TaskDict.task_id = _
      exact setFirstDoc_map_id st.docs k u
  · simp only [Bool.not_eq_true] at hc
    simp [hc]

theorem updTitleFun_id (ti : Option String) (t : Task) :
    (updTitleFun ti t).task_id = t.task_id := (updTitleFun_frame ti t).2.2.1

theorem updDescFun_id (d : Option String) (t : Task) :
    (updDescFun d t).task_id = t.task_id := (updDescFun_frame d t).2.2.1

theorem updDueFun_id (d : Option DateTime) (t : Task) :
    (updDueFun d t).task_id = t.task_id := (updDueFun_frame d t).2.2.1

theorem updPrioFun_id (p : Option String) (t : Task) :
    (updPrioFun p t).task_id = t.task_id := (updPrioFun_frame p t).2.1

theorem updStatusFun_id (p : Option String) (t : Task) :
    (updStatusFun p t).task_id = t.task_id := (updStatusFun_frame p t).1

theorem heapSet_lookup_ids (h : List (Nat × Task)) (r : Nat) (f : Task → Task)
    (hf : ∀ t, (f t).task_id = t.task_id) (x : Nat) :
    (heapLookup (heapSet h r f) x).map Task.task_id =
      (heapLookup h x).map Task.task_id := by
  rw [heapLookup_heapSet]
  by_cases hx : x = r
  · rw [if_pos hx]
    cases heapLookup h x with
    | none => rfl
    | some t => simp [hf]
  · rw [if_neg hx]

/-- Well-formedness transfers to any state that keeps the cache structures,
the heap's keys and the id of every heap cell, and the store ids. -/
theorem WF_of_shape (s : TMState) (H : List (Nat × Task)) (db' : Store)
    (hwf : WF s) (hkeys : H.map Prod.fst = s.heap.map Prod.fst)
    (hids : ∀ x, (heapLookup H x).map Task.task_id =
      (heapLookup s.heap x).map Task.task_id)
    (hdb : db'.docs.map TaskDict.task_id = s.db.docs.map TaskDict.task_id) :
    WF { s with heap := H, db := db' } := by
  obtain ⟨h1, h2, h3, h4, h5, h6⟩ := hwf
  refine ⟨h1, ?_, ?_, ?_, h5, ?_⟩
  · show (H.map Prod.fst).Nodup
    rw [hkeys]
    exact h2
  · intro p hp
    have : p.1 ∈ s.heap.map Prod.fst := by
      rw [← hkeys]
      exact List.mem_map_of_mem Prod.fst hp
    obtain ⟨q, hq, hqe⟩ := List.mem_map.mp this
    show p.1 < s.nextRef
    rw [← hqe]
    exact h3 q hq
  · intro p hp
    show (heapLookup H p.2).map Task.task_id = some p.1
    rw [hids]
    exact h4 p hp
  · show db'.docs.map TaskDict.task_id |>.Nodup
    rw [hdb]
    exact h6

/-- Uniform shape of every `update_task` outcome: the cache structures are
untouched, the heap keeps its keys and every cell's id, and the store keeps
its documents' ids. -/
theorem update_task_wf_shape (s : TMState)
    (hnd : (s.heap.map Prod.fst).Nodup) (tid : String)
    (title description : Option String) (due_date : Option DateTime)
    (priority status : Option String) :
    ∃ H db' o, TaskManager.update_task s tid title description due_date
        priority status = ({ s with heap := H, db := db' }, o) ∧
      H.map Prod.fst = s.heap.map Prod.fst ∧
      (∀ x, (heapLookup H x).map Task.task_id =
        (heapLookup s.heap x).map Task.task_id) ∧
      db'.docs.map TaskDict.task_id = s.db.docs.map TaskDict.task_id := by
  cases hget : TaskManager.get_task s tid with
  | none =>
    refine ⟨s.heap, s.db, .ok false, ?_, rfl, fun x => rfl, rfl⟩
    unfold TaskManager.update_task
    rw [hget]
  | some r =>
  cases hlook : heapLookup s.heap r with
  | none =>
    refine ⟨s.heap, s.db, .ok false, ?_, rfl, fun x => rfl, rfl⟩
    unfold TaskManager.update_task
    simp only [hget, hlook]
  | some t0 =>
  by_cases hbt : badTitle title = true
  · obtain ⟨v, rfl⟩ : ∃ v, title = some v := by
      cases title with
      | none => simp [badTitle] at hbt
      | some v => exact ⟨v, rfl⟩
    cases hval : validate_title v with
    | ok v' =>
      rw [show badTitle (some v) = isErr (validate_title v) from rfl, hval] at hbt
      simp [isErr] at hbt
    | error e =>
      refine ⟨s.heap, s.db, .error e, ?_, rfl, fun x => rfl, rfl⟩
      unfold TaskManager.update_task
      simp only [hget, hlook, stepTitle_some_err r _ hval]
  · have hbt' : badTitle title = false := by
      cases hb2 : badTitle title with
      | false => rfl
      | true => exact absurd hb2 hbt
    obtain ⟨u1, h1⟩ := stepTitle_ok_obs r (s, {}) hnd hlook title hbt'
    have hnd1 : ((heapSet s.heap r (updTitleFun title)).map Prod.fst).Nodup := by
      rw [heapSet_map_fst]
      exact hnd
    have hl1 : heapLookup (heapSet s.heap r (updTitleFun title)) r =
        some (updTitleFun title t0) := by
      rw [heapLookup_heapSet]
      simp [hlook]
    obtain ⟨u2, h2⟩ := stepDescription_obs r
      ({ s with heap := heapSet s.heap r (updTitleFun title) }, u1) hnd1 hl1
      description
    have hnd2 : ((heapSet (heapSet s.heap r (updTitleFun title)) r
        (updDescFun description)).map Prod.fst).Nodup := by
      rw [heapSet_map_fst, heapSet_map_fst]
      exact hnd
    have hl2 : heapLookup (heapSet (heapSet s.heap r (updTitleFun title)) r
        (updDescFun description)) r =
        some (updDescFun description (updTitleFun title t0)) := by
      rw [heapLookup_heapSet]
      simp [hl1]
    obtain ⟨u3, h3⟩ := stepDueDate_obs r
      ({ s with heap := heapSet (heapSet s.heap r (updTitleFun title)) r (updDescFun description) }, u2)
      hnd2 hl2 due_date
    have hnd3 : ((heapSet (heapSet (heapSet s.heap r (updTitleFun title)) r
        (updDescFun description)) r (updDueFun due_date)).map Prod.fst).Nodup := by
      rw [heapSet_map_fst, heapSet_map_fst, heapSet_map_fst]
      exact hnd
    have hl3 : heapLookup (heapSet (heapSet (heapSet s.heap r
        (updTitleFun title)) r (updDescFun description)) r
        (updDueFun due_date)) r =
        some (updDueFun due_date (updDescFun description (updTitleFun title t0))) := by
      rw [heapLookup_heapSet]
      simp [hl2]
    have hids3 : ∀ x, (heapLookup (heapSet (heapSet (heapSet s.heap r
        (updTitleFun title)) r (updDescFun description)) r
        (updDueFun due_date)) x).map Task.task_id =
        (heapLookup s.heap x).map Task.task_id := by
      intro x
      rw [heapSet_lookup_ids _ _ _ (updDueFun_id due_date),
        heapSet_lookup_ids _ _ _ (updDescFun_id description),
        heapSet_lookup_ids _ _ _ (updTitleFun_id title)]
    by_cases hbp : badPriority priority = true
    · obtain ⟨v, rfl⟩ : ∃ v, priority = some v := by
        cases priority with
        | none => simp [badPriority] at hbp
        | some v => exact ⟨v, rfl⟩
      cases hval : validate_priority v with
      | ok v' =>
        rw [show badPriority (some v) = isErr (validate_priority v) from rfl,
          hval] at hbp
        simp [isErr] at hbp
      | error e =>
        refine ⟨_, s.db, .error e, ?_, ?_, hids3, rfl⟩
        · unfold TaskManager.update_task
          simp only [hget, hlook, h1, h2, h3, stepPriority_some_err r _ hval]
        · rw [heapSet_map_fst, heapSet_map_fst, heapSet_map_fst]
    · have hbp' : badPriority priority = false := by
        cases hb2 : badPriority priority with
        | false => rfl
        | true => exact absurd hb2 hbp
      obtain ⟨u4, h4⟩ := stepPriority_ok_obs r
        ({ s with heap := heapSet (heapSet (heapSet s.heap r (updTitleFun title)) r (updDescFun description)) r (updDueFun due_date) }, u3)
        hnd3 hl3 priority hbp'
      have hnd4 : ((heapSet (heapSet (heapSet (heapSet s.heap r
          (updTitleFun title)) r (updDescFun description)) r
          (updDueFun due_date)) r (updPrioFun priority)).map Prod.fst).Nodup := by
        rw [heapSet_map_fst]
        exact hnd3
      have hl4 : heapLookup (heapSet (heapSet (heapSet (heapSet s.heap r
          (updTitleFun title)) r (updDescFun description)) r
          (updDueFun due_date)) r (updPrioFun priority)) r =
          some (updPrioFun priority (updDueFun due_date
            (updDescFun description (updTitleFun title t0)))) := by
        rw [heapLookup_heapSet]
        simp [hl3]
      have hids4 : ∀ x, (heapLookup (heapSet (heapSet (heapSet (heapSet s.heap r
          (updTitleFun title)) r (updDescFun description)) r
          (updDueFun due_date)) r (updPrioFun priority)) x).map Task.task_id =
          (heapLookup s.heap x).map Task.task_id := by
        intro x
        rw [heapSet_lookup_ids _ _ _ (updPrioFun_id priority)]
        exact hids3 x
      by_cases hbs : badStatus status = true
      · obtain ⟨v, rfl⟩ : ∃ v, status = some v := by
          cases status with
          | none => simp [badStatus] at hbs
          | some v => exact ⟨v, rfl⟩
        cases hval : validate_status v with
        | ok v' =>
          rw [show badStatus (some v) = isErr (validate_status v) from rfl,
            hval] at hbs
          simp [isErr] at hbs
        | error e =>
          refine ⟨_, s.db, .error e, ?_, ?_, hids4, rfl⟩
          · unfold TaskManager.update_task
            simp only [hget, hlook, h1, h2, h3, h4, stepStatus_some_err r _ hval]
          · rw [heapSet_map_fst, heapSet_map_fst, heapSet_map_fst, heapSet_map_fst]
      · have hbs' : badStatus status = false := by
          cases hb2 : badStatus status with
          | false => rfl
          | true => exact absurd hb2 hbs
        obtain ⟨u5, h5⟩ := stepStatus_ok_obs r
          ({ s with heap := heapSet (heapSet (heapSet (heapSet s.heap r (updTitleFun title)) r (updDescFun description)) r (updDueFun due_date)) r (updPrioFun priority) }, u4)
          hnd4 hl4 status hbs'
        have hids5 : ∀ x, (heapLookup (heapSet (heapSet (heapSet (heapSet
            (heapSet s.heap r (updTitleFun title)) r (updDescFun description)) r
            (updDueFun due_date)) r (updPrioFun priority)) r
            (updStatusFun status)) x).map Task.task_id =
            (heapLookup s.heap x).map Task.task_id := by
          intro x
          rw [heapSet_lookup_ids _ _ _ (updStatusFun_id status)]
          exact hids4 x
        have hkeys5 : ((heapSet (heapSet (heapSet (heapSet (heapSet s.heap r
            (updTitleFun title)) r (updDescFun description)) r
            (updDueFun due_date)) r (updPrioFun priority)) r
            (updStatusFun status)).map Prod.fst) = s.heap.map Prod.fst := by
          rw [heapSet_map_fst, heapSet_map_fst, heapSet_map_fst, heapSet_map_fst,
            heapSet_map_fst]
        by_cases hemp : u5.isEmpty = true
        · refine ⟨_, s.db, .ok true, ?_, hkeys5, hids5, rfl⟩
          unfold TaskManager.update_task
          simp only [hget, hlook, h1, h2, h3, h4, h5, hemp, if_true]
        · have hemp' : u5.isEmpty = false := by
            cases hb2 : u5.isEmpty with
            | false => rfl
            | true => exact absurd hb2 hemp
          cases hm : Store.update_task s.db t0.task_id u5 with
          | mk db' o =>
            have hdbids : db'.docs.map TaskDict.task_id =
                s.db.docs.map TaskDict.task_id := by
              have := store_update_ids s.db t0.task_id u5
              rw [hm] at this
              exact this
            cases o with
            | ok b =>
              refine ⟨_, db', .ok true, ?_, hkeys5, hids5, hdbids⟩
              unfold TaskManager.update_task
              simp only [hget, hlook, h1, h2, h3, h4, h5, hemp', hm]
              rfl
            | error e =>
              refine ⟨_, db', .error (.exception ("Database error: " ++ e.msg)),
                ?_, hkeys5, hids5, hdbids⟩
              unfold TaskManager.update_task
              simp only [hget, hlook, h1, h2, h3, h4, h5, hemp', hm]
              rfl

theorem allocRun_ids (n0 : Nat) (ts : List Task) :
    (((allocRun n0 ts).map (fun p => (p.2.task_id, p.1))).map Prod.fst) =
      ts.map Task.task_id := by
  induction ts generalizing n0 with
  | nil => rfl
  | cons t ts ih => simp [allocRun, ih]

/-- Well-formedness alone forces the two cache structures to agree. -/
theorem WF_coherent (s : TMState) (hwf : WF s) : cacheCoherent s := by
  obtain ⟨h1, h2, h3, h4, h5, h6⟩ := hwf
  have hpairs : s.tasks.Nodup := List.Nodup.of_map Prod.fst h1
  have hsnd : (s.tasks.map Prod.snd).Nodup := by
    refine List.Nodup.map_on ?_ hpairs
    intro p hp q hq he
    have hp4 := h4 p hp
    have hq4 := h4 q hq
    rw [he, hq4] at hp4
    have hfst : q.1 = p.1 := Option.some.inj hp4
    show (p.1, p.2) = (q.1, q.2)
    rw [hfst, ← he]
  refine ⟨?_, ?_, ?_⟩
  · intro r hr
    rw [h5] at hr
    obtain ⟨p, hp, rfl⟩ := List.mem_map.mp hr
    have hp4 := h4 p hp
    cases hL : heapLookup s.heap p.2 with
    | none => rw [hL] at hp4; cases hp4
    | some t =>
      rw [hL] at hp4
      have hid : t.task_id = p.1 := Option.some.inj hp4
      show dictLookup s.tasks t.task_id = some p.2
      rw [hid]
      exact dictLookup_of_nodup_mem h1 hp
  · intro p hp
    rw [h5]
    exact List.count_eq_one_of_mem hsnd (List.mem_map_of_mem Prod.snd hp)
  · rw [h5, List.length_map]

/-- The state produced by a successful reload is well-formed whenever the
incoming ids are distinct. -/
theorem load_state_wf (s : TMState) (hwf : WF s) (ts : List Task)
    (hnd : (ts.map Task.task_id).Nodup) :
    WF { s with heap := s.heap ++ allocRun s.nextRef ts,
                nextRef := s.nextRef + ts.length,
                tasks := (allocRun s.nextRef ts).map (fun p => (p.2.task_id, p.1)),
                task_list := (allocRun s.nextRef ts).map Prod.fst } := by
  obtain ⟨h1, h2, h3, h4, h5, h6⟩ := hwf
  refine ⟨?_, ?_, ?_, ?_, ?_, h6⟩
  · show (((allocRun s.nextRef ts).map
      (fun p => (p.2.task_id, p.1))).map Prod.fst).Nodup
    rw [allocRun_ids]
    exact hnd
  · show ((s.heap ++ allocRun s.nextRef ts).map Prod.fst).Nodup
    rw [List.map_append]
    refine List.Nodup.append h2 (allocRun_fst_nodup _ _) ?_
    intro a ha hb
    obtain ⟨p, hp, rfl⟩ := List.mem_map.mp ha
    obtain ⟨q, hq, hpq⟩ := List.mem_map.mp hb
    have hlt := h3 p hp
    have hge := allocRun_fst_ge _ _ q hq
    rw [hpq] at hge
    omega
  · intro p hp
    rcases List.mem_append.mp hp with hmem | hmem
    · have := h3 p hmem
      show p.1 < s.nextRef + ts.length
      omega
    · have := allocRun_fst_lt s.nextRef ts p hmem
      show p.1 < s.nextRef + ts.length
      omega
  · intro p hp
    obtain ⟨q, hq, rfl⟩ := List.mem_map.mp hp
    show (heapLookup (s.heap ++ allocRun s.nextRef ts) q.1).map Task.task_id =
      some q.2.task_id
    rw [allocRun_lookup_mem ts s.nextRef s.heap h3 q hq]
    rfl
  · show (allocRun s.nextRef ts).map Prod.fst =
      ((allocRun s.nextRef ts).map (fun p => (p.2.task_id, p.1))).map Prod.snd
    rw [List.map_map]
    rfl

/-- Reload preserves well-formedness. -/
theorem load_wf (s : TMState) (hwf : WF s) (now : DateTime) :
    WF (TaskManager.load_tasks_from_db s now).1 := by
  cases hc : s.db.connected with
  | false =>
    have hres : TaskManager.load_tasks_from_db s now = (s, false) := by
      unfold TaskManager.load_tasks_from_db Store.get_all_tasks
      rw [hc]
      rfl
    rw [hres]
    exact hwf
  | true =>
    have hids : ((s.db.docs.map (fun d => Task.from_dict d now)).map
        Task.task_id) = s.db.docs.map TaskDict.task_id := by
      rw [List.map_map]
      rfl
    have hnd : ((s.db.docs.map (fun d => Task.from_dict d now)).map
        Task.task_id).Nodup := by
      rw [hids]
      exact hwf.2.2.2.2.2
    have hscan : s.db.get_all_tasks now =
        .ok (s.db.docs.map (fun d => Task.from_dict d now)) := by
      unfold Store.get_all_tasks
      rw [hc]
      rfl
    have hfold := load_fold_eq (s.db.docs.map (fun d => Task.from_dict d now))
      { s with tasks := [], task_list := [] } hnd (fun t _ p hp => by cases hp)
    have hres : TaskManager.load_tasks_from_db s now =
        ({ s with
            heap := s.heap ++
              allocRun s.nextRef (s.db.docs.map (fun d => Task.from_dict d now)),
            nextRef := s.nextRef +
              (s.db.docs.map (fun d => Task.from_dict d now)).length,
            tasks := (allocRun s.nextRef
              (s.db.docs.map (fun d => Task.from_dict d now))).map
                (fun p => (p.2.task_id, p.1)),
            task_list := (allocRun s.nextRef
              (s.db.docs.map (fun d => Task.from_dict d now))).map Prod.fst },
          true) := by
      unfold TaskManager.load_tasks_from_db
      simp only [hscan]
      rw [hfold]
      rfl
    rw [hres]
    exact load_state_wf s hwf _ hnd

/-- Appending a freshly allocated task with an unseen id preserves
well-formedness, provided the store's unique index still holds. -/
theorem WF_append_fresh (s : TMState) (hwf : WF s) (t : Task) (db' : Store)
    (hfresh : ∀ p ∈ s.tasks, p.1 ≠ t.task_id)
    (hdb : (db'.docs.map TaskDict.task_id).Nodup) :
    WF { s with db := db',
                heap := s.heap ++ [(s.nextRef, t)],
                nextRef := s.nextRef + 1,
                tasks := dictInsert s.tasks t.task_id s.nextRef,
                task_list := s.task_list ++ [s.nextRef] } := by
  obtain ⟨h1, h2, h3, h4, h5, h6⟩ := hwf
  have hins : dictInsert s.tasks t.task_id s.nextRef =
      s.tasks ++ [(t.task_id, s.nextRef)] := dictInsert_append hfresh
  refine ⟨?_, ?_, ?_, ?_, ?_, hdb⟩
  · show ((dictInsert s.tasks t.task_id s.nextRef).map Prod.fst).Nodup
    rw [hins, List.map_append]
    refine List.Nodup.append h1 (List.nodup_singleton _) ?_
    intro a ha hb
    obtain ⟨p, hp, rfl⟩ := List.mem_map.mp ha
    exact hfresh p hp (List.mem_singleton.mp hb)
  · show ((s.heap ++ [(s.nextRef, t)]).map Prod.fst).Nodup
    rw [List.map_append]
    refine List.Nodup.append h2 (List.nodup_singleton _) ?_
    intro a ha hb
    obtain ⟨p, hp, rfl⟩ := List.mem_map.mp ha
    have hlt := h3 p hp
    have hb' : p.1 = s.nextRef := List.mem_singleton.mp hb
    omega
  · intro p hp
    rcases List.mem_append.mp hp with hmem | hmem
    · have := h3 p hmem
      show p.1 < s.nextRef + 1
      omega
    · rw [List.mem_singleton.mp hmem]
      exact Nat.lt_succ_self _
  · intro p hp
    rw [hins] at hp
    rcases List.mem_append.mp hp with hmem | hmem
    · have hp4 := h4 p hmem
      show (heapLookup (s.heap ++ [(s.nextRef, t)]) p.2).map Task.task_id =
        some p.1
      rw [heapLookup_append]
      cases hL : heapLookup s.heap p.2 with
      | none => rw [hL] at hp4; cases hp4
      | some t' =>
        rw [hL] at hp4
        exact hp4
    · rw [List.mem_singleton.mp hmem]
      show (heapLookup (s.heap ++ [(s.nextRef, t)]) s.nextRef).map Task.task_id =
        some t.task_id
      rw [heapLookup_append]
      have hnone : heapLookup s.heap s.nextRef = none := by
        unfold heapLookup
        have : s.heap.find? (fun q => q.1 == s.nextRef) = none :=
          List.find?_eq_none.mpr (fun q hq => by
            have := h3 q hq
            simp
            omega)
        rw [this]
        rfl
      rw [hnone]
      show (heapLookup [(s.nextRef, t)] s.nextRef).map Task.task_id =
        some t.task_id
      unfold heapLookup
      rw [List.find?_cons_of_pos _ (by simp)]
      rfl
  · show s.task_list ++ [s.nextRef] =
      (dictInsert s.tasks t.task_id s.nextRef).map Prod.snd
    rw [hins, List.map_append, h5]
    rfl

/-- Creation preserves well-formedness when the generated id is absent from
the dict (the uuid-freshness assumption). -/
theorem add_wf (s : TMState) (hwf : WF s) (title description : String)
    (due_date : DateTime) (priority status freshId : String) (now : DateTime)
    (hfresh : ∀ p ∈ s.tasks, p.1 ≠ freshId) :
    WF (TaskManager.add_task s title description due_date priority status
      freshId now).1 := by
  cases hv1 : validate_title title with
  | error e =>
    unfold TaskManager.add_task
    simp only [hv1]
    exact hwf
  | ok title' =>
  cases hv2 : validate_priority priority with
  | error e =>
    unfold TaskManager.add_task
    simp only [hv1, hv2]
    exact hwf
  | ok priority' =>
  cases hv3 : validate_status status with
  | error e =>
    unfold TaskManager.add_task
    simp only [hv1, hv2, hv3]
    exact hwf
  | ok status' =>
  cases hc : s.db.connected with
  | false =>
    unfold TaskManager.add_task Store.insert_task
    simp only [hv1, hv2, hv3, hc]
    exact hwf
  | true =>
    cases hf : s.db.docs.find? (fun d => d.task_id == (Task.init now freshId
        title' (validate_description description) due_date priority' status'
        none).task_id) with
    | some d =>
      unfold TaskManager.add_task Store.insert_task
      simp only [hv1, hv2, hv3, hc, hf]
      exact hwf
    | none =>
      have hdocs : (((s.db.docs ++ [(Task.init now freshId title'
          (validate_description description) due_date priority' status'
          none).to_dict]).map TaskDict.task_id)).Nodup := by
        rw [List.map_append]
        refine List.Nodup.append hwf.2.2.2.2.2 (List.nodup_singleton _) ?_
        intro a ha hb
        obtain ⟨dd, hd, rfl⟩ := List.mem_map.mp ha
        have hnot := List.find?_eq_none.mp hf dd hd
        simp only [beq_iff_eq] at hnot
        exact hnot (List.mem_singleton.mp hb)
      unfold TaskManager.add_task Store.insert_task
      simp only [hv1, hv2, hv3, hc, hf]
      exact WF_append_fresh s hwf
        (Task.init now freshId title' (validate_description description)
          due_date priority' status' none)
        { s.db with docs := s.db.docs ++ [(Task.init now freshId title'
            (validate_description description) due_date priority' status'
            none).to_dict] }
        hfresh hdocs

/-- Erasing one id from the dict together with the matching list filter
preserves well-formedness. -/
theorem WF_erase (s : TMState) (hwf : WF s) (k : String) (db' : Store)
    (hdb : (db'.docs.map TaskDict.task_id).Nodup) :
    WF { s with db := db',
                tasks := dictErase s.tasks k,
                task_list := s.task_list.filter (fun r' =>
                  match heapLookup s.heap r' with
                  | some t' => t'.task_id != k
                  | none => true) } := by
  obtain ⟨h1, h2, h3, h4, h5, h6⟩ := hwf
  refine ⟨?_, h2, h3, ?_, ?_, hdb⟩
  · show ((dictErase s.tasks k).map Prod.fst).Nodup
    unfold dictErase
    exact ((List.filter_sublist _).map Prod.fst).nodup h1
  · intro p hp
    have hp' : p ∈ s.tasks := List.mem_of_mem_filter hp
    exact h4 p hp'
  · show s.task_list.filter _ = (dictErase s.tasks k).map Prod.snd
    rw [h5]
    unfold dictErase
    rw [List.filter_map]
    congr 1
    refine List.filter_congr ?_
    intro p hp
    have hp4 := h4 p hp
    cases hL : heapLookup s.heap p.2 with
    | none => rw [hL] at hp4; cases hp4
    | some t' =>
      rw [hL] at hp4
      have hid : t'.task_id = p.1 := Option.some.inj hp4
      show (match heapLookup s.heap p.2 with
        | some t' => t'.task_id != k
        | none => true) = (p.1 != k)
      simp only [hL]
      rw [hid]

/-- Deletion preserves well-formedness. -/
theorem delete_wf (s : TMState) (hwf : WF s) (tid : String) :
    WF (TaskManager.delete_task s tid).1 := by
  unfold TaskManager.delete_task
  cases hget : TaskManager.get_task s tid with
  | none => exact hwf
  | some r =>
  cases hlook : heapLookup s.heap r with
  | none =>
    simp only [hlook]
    exact hwf
  | some t =>
  cases hc : s.db.connected with
  | false =>
    have hdel : Store.delete_task s.db t.task_id =
        (s.db, .error (.connectionError "Database not connected")) := by
      unfold Store.delete_task
      rw [hc]
      rfl
    simp only [hlook, hdel]
    exact hwf
  | true =>
    cases hf : s.db.docs.find? (fun d => d.task_id == t.task_id) with
    | none =>
      have hdel : Store.delete_task s.db t.task_id = (s.db, .ok false) := by
        unfold Store.delete_task
        rw [hc]
        simp only [hf]
        rfl
      simp only [hlook, hdel]
      exact WF_erase s hwf t.task_id s.db hwf.2.2.2.2.2
    | some d =>
      have hsub : ((s.db.docs.eraseP (fun q => q.task_id == t.task_id)).map
          TaskDict.task_id).Nodup :=
        ((List.eraseP_sublist _).map TaskDict.task_id).nodup hwf.2.2.2.2.2
      have hdel : Store.delete_task s.db t.task_id =
          ((⟨true, s.db.docs.eraseP (fun q => q.task_id == t.task_id)⟩ : Store),
            .ok true) := by
        unfold Store.delete_task
        rw [hc]
        simp only [hf]
        rfl
      simp only [hlook, hdel]
      exact WF_erase s hwf t.task_id
        ⟨true, s.db.docs.eraseP (fun q => q.task_id == t.task_id)⟩ hsub

/-- Field update preserves well-formedness. -/
theorem update_wf (s : TMState) (hwf : WF s) (tid : String)
    (title description : Option String) (due_date : Option DateTime)
    (priority status : Option String) :
    WF (TaskManager.update_task s tid title description due_date priority
      status).1 := by
  obtain ⟨H, db', o, heq, hkeys, hids, hdb⟩ :=
    update_task_wf_shape s hwf.2.1 tid title description due_date priority status
  rw [heq]
  exact WF_of_shape s H db' hwf hkeys hids hdb

/-- C9: invariant of the in-memory cache — in any well-formed state, and
after every manager operation run from one (reload, creation with a fresh
uuid, field update, mark-completed, deletion), the id-keyed dict `_tasks`
and the list `_task_list` agree: each listed object is the one the dict
stores under its id, each dict entry's reference occurs in the list exactly
once, and both structures have the same size; well-formedness itself is
preserved by every operation, so the agreement holds after every operation
of any run. -/
theorem C9_cache_structures_agree (s : TMState) (hwf : WF s) :
    cacheCoherent s ∧
    (∀ now, WF (TaskManager.load_tasks_from_db s now).1 ∧
      cacheCoherent (TaskManager.load_tasks_from_db s now).1) ∧
    (∀ title description due_date priority status freshId now,
      (∀ p ∈ s.tasks, p.1 ≠ freshId) →
      WF (TaskManager.add_task s title description due_date priority status
        freshId now).1 ∧
      cacheCoherent (TaskManager.add_task s title description due_date priority
        status freshId now).1) ∧
    (∀ tid title description due_date priority status,
      WF (TaskManager.update_task s tid title description due_date priority
        status).1 ∧
      cacheCoherent (TaskManager.update_task s tid title description due_date
        priority status).1) ∧
    (∀ tid, WF (TaskManager.mark_completed s tid).1 ∧
      cacheCoherent (TaskManager.mark_completed s tid).1) ∧
    (∀ tid, WF (TaskManager.delete_task s tid).1 ∧
      cacheCoherent (TaskManager.delete_task s tid).1) := by
  refine ⟨WF_coherent s hwf, ?_, ?_, ?_, ?_, ?_⟩
  · intro now
    have h := load_wf s hwf now
    exact ⟨h, WF_coherent _ h⟩
  · intro title description due_date priority status freshId now hfr
    have h := add_wf s hwf title description due_date priority status freshId
      now hfr
    exact ⟨h, WF_coherent _ h⟩
  · intro tid title description due_date priority status
    have h := update_wf s hwf tid title description due_date priority status
    exact ⟨h, WF_coherent _ h⟩
  · intro tid
    have h : WF (TaskManager.mark_completed s tid).1 :=
      update_wf s hwf tid none none none none (some "Completed")
    exact ⟨h, WF_coherent _ h⟩
  · intro tid
    have h := delete_wf s hwf tid
    exact ⟨h, WF_coherent _ h⟩

/-- C9 witness: the invariant theorem applied to the concrete two-task state,
exercising the creation conjunct with a fresh id. -/
theorem C9_witness :
    WF wState ∧ (∀ p ∈ wState.tasks, p.1 ≠ "ccc-3000") ∧
    (WF (TaskManager.add_task wState "Gamma" "d" ⟨4, 0⟩ "Low" "Pending"
        "ccc-3000" ⟨3, 0⟩).1 ∧
      cacheCoherent (TaskManager.add_task wState "Gamma" "d" ⟨4, 0⟩ "Low"
        "Pending" "ccc-3000" ⟨3, 0⟩).1) :=
  ⟨by decide, by decide,
    (C9_cache_structures_agree wState (by decide)).2.2.1 "Gamma" "d" ⟨4, 0⟩
      "Low" "Pending" "ccc-3000" ⟨3, 0⟩ (by decide)⟩

/-- C4 witness: a two-task cache where the lookup string is the first 8
characters of one id and matches no other id. -/
theorem C4_witness :
    WF ⟨[(0, ⟨"abcdefgh-1", "A", "", ⟨1, 0⟩, "Low", "Pending", ⟨0, 0⟩⟩),
         (1, ⟨"zzz", "B", "", ⟨1, 0⟩, "Low", "Pending", ⟨0, 0⟩⟩)], 2,
        [("abcdefgh-1", 0), ("zzz", 1)], [0, 1], ⟨true, []⟩⟩ ∧
    TaskManager.get_task
      ⟨[(0, ⟨"abcdefgh-1", "A", "", ⟨1, 0⟩, "Low", "Pending", ⟨0, 0⟩⟩),
        (1, ⟨"zzz", "B", "", ⟨1, 0⟩, "Low", "Pending", ⟨0, 0⟩⟩)], 2,
       [("abcdefgh-1", 0), ("zzz", 1)], [0, 1], ⟨true, []⟩⟩ "abcdefgh" = some 0 := by
  refine ⟨by decide, ?_⟩
  exact (C4_get_task_resolution _ (by decide) _).2.2.2 "abcdefgh-1" 0
    (by decide) (by decide) (by decide)

end TMS
